import Mathlib

/-!
# PBFParser (Extractor/PBFParser.cpp): a shallow embedding

The decoders of `PBFParser` are embedded as pure functions over lists.
Conventions used throughout:

* protobuf repeated fields are lists; an index access `f(i)` is `f[i]?`, and a
  read past the end is `Failure.outOfRange` (undefined behaviour in the source);
* C++ integers are `Int` with explicit reduction to the width of the variable
  they are stored in (`toInt32`, `toUInt32`, `toInt64`);
* `assert` is live unless the build defines `NDEBUG`; the flag `ndebug` selects
  the build, and a violated live assertion is `Failure.assertion`;
* the scripting hook and the native callbacks are external: a decoder returns
  the list of entities it hands to them, in call order; a failure anywhere makes
  the whole result an error.
-/

namespace PBFParser

/-! ## Failures and machine integers -/

/-- Ways in which a run leaves the normal control flow of the source. -/
inductive Failure where
  /-- a repeated field or the string table is indexed past its end -/
  | outOfRange
  /-- an `assert` is violated in a build without `NDEBUG` -/
  | assertion
  /-- `wait_and_pop` is called on an empty queue that nobody will fill -/
  | blocked
  deriving DecidableEq

/-- Value of an integer after conversion to a 32-bit `int`. -/
def toInt32 (x : Int) : Int := (x + 2147483648) % 4294967296 - 2147483648

/-- Value of an integer after conversion to a 32-bit `unsigned`. -/
def toUInt32 (x : Int) : Int := x % 4294967296

/-- Value of an integer kept in a 64-bit `long long`. -/
def toInt64 (x : Int) : Int :=
  (x + 9223372036854775808) % 18446744073709551616 - 9223372036854775808

/-- The constant `UINT_MAX` of `<climits>`. -/
def UINT_MAX : Int := 4294967295

/-- Sum of the first `k` entries of a delta array. -/
def prefixSum (ds : List Int) (k : Nat) : Int := (ds.take k).sum

/-! ## Strings -/

/-- The `std::string` built from `str.data()`: a `const char*` is copied up to,
and not including, its first NUL character. -/
def cstr (str : String) : String :=
  String.mk (str.data.takeWhile (fun c => c != Char.ofNat 0))

/-- The test `val.find(p) == 0`: `p` occurs in `val` at position 0. -/
def startsWith (p val : String) : Bool := p.data.isPrefixOf val.data

/-- Access `stringtable().s(i)`; the index is a C++ `int`. -/
def s (stringtable : List String) (i : Int) : Except Failure String :=
  if 0 ≤ i then
    match stringtable[i.toNat]? with
    | some str => .ok str
    | none => .error .outOfRange
  else .error .outOfRange

/-! ## Messages of the block format (the fields the decoders read) -/

/-- Message `DenseNodes`: delta-coded columns and the flat tag array. -/
structure DenseNodes where
  id : List Int
  lat : List Int
  lon : List Int
  keys_vals : List Int
  deriving DecidableEq

/-- Message `Node` (simple nodes; only their count is ever inspected). -/
structure Node where
  id : Int
  keys : List Int
  vals : List Int
  lat : Int
  lon : Int
  deriving DecidableEq

/-- Message `Way`. -/
structure Way where
  id : Int
  keys : List Int
  vals : List Int
  refs : List Int
  deriving DecidableEq

/-- Enumeration `Relation.MemberType` (`NODE = 0`, `WAY = 1`, `RELATION = 2`).
A decoded message holds no other value, so the `default:` branch of the switch
in `parseRelation` is never taken. -/
inductive MemberType where
  | node
  | way
  | relation
  deriving DecidableEq

/-- Message `Relation`. -/
structure Relation where
  keys : List Int
  vals : List Int
  roles_sid : List Int
  memids : List Int
  types : List MemberType
  deriving DecidableEq

/-- Message `PrimitiveGroup`; `dense = none` is `has_dense() == false`. -/
structure PrimitiveGroup where
  nodes : List Node
  ways : List Way
  relations : List Relation
  dense : Option DenseNodes
  deriving DecidableEq

/-- Message `PrimitiveBlock`. -/
structure PrimitiveBlock where
  stringtable : List String
  granularity : Int
  lat_offset : Int
  lon_offset : Int
  primitivegroup : List PrimitiveGroup
  deriving DecidableEq

/-! ## parseDenseNode -/

/-- The node `n` built by one iteration of `parseDenseNode`, as it stands when
the `try` block is entered: it is passed to the scripting hook first and, when
the hook returns, to the node callback. `id` is the value of
`m_lastDenseID` assigned to `n.id`; `latRaw` and `lonRaw` are the values of
`m_lastDenseLatitude` and `m_lastDenseLongitude` that enter the floating-point
coordinate formula; `keyVals` lists the `Add(key, value)` calls in call order. -/
structure ImportNode where
  id : Int
  latRaw : Int
  lonRaw : Int
  keyVals : List (String × String)
  deriving DecidableEq

/-- The `while (denseTagIndex < dense.keys_vals_size())` loop of
`parseDenseNode`, started at cursor `idx` with the tags collected so far.
Every iteration advances the cursor, so `fuel = keys_vals.length` iterations
always suffice (see `denseTags_fuel`). Returns the cursor and the tags. -/
def denseTags (stringtable : List String) (keys_vals : List Int) :
    Nat → Nat → List (String × String) → Except Failure (Nat × List (String × String))
  | 0, idx, tags => .ok (idx, tags)
  | fuel + 1, idx, tags =>
    if idx < keys_vals.length then
      match keys_vals[idx]? with
      | none => .error .outOfRange
      | some tagValue =>
        if tagValue = 0 then .ok (idx + 1, tags)
        else
          match keys_vals[idx + 1]? with
          | none => .error .outOfRange
          | some keyValue =>
            match s stringtable tagValue with
            | .error e => .error e
            | .ok key =>
              match s stringtable keyValue with
              | .error e => .error e
              | .ok value =>
                denseTags stringtable keys_vals fuel (idx + 2)
                  (tags ++ [(cstr key, cstr value)])
    else .ok (idx, tags)

/-- Local variables of `parseDenseNode` that live across iterations, together
with the nodes handed on so far. -/
structure DenseState where
  denseTagIndex : Nat
  m_lastDenseID : Int
  m_lastDenseLatitude : Int
  m_lastDenseLongitude : Int
  emitted : List ImportNode
  deriving DecidableEq

/-- One iteration of the `for` loop of `parseDenseNode` at index `i`, where
`d` is `dense.id(i)`. The three accumulators are `int`, so each sum is
converted back to 32 bits. -/
def denseStep (stringtable : List String) (dense : DenseNodes) (i : Nat) (d : Int)
    (st : DenseState) : Except Failure DenseState :=
  match dense.lat[i]? with
  | none => .error .outOfRange
  | some dlat =>
    match dense.lon[i]? with
    | none => .error .outOfRange
    | some dlon =>
      let id := toInt32 (st.m_lastDenseID + d)
      let lat := toInt32 (st.m_lastDenseLatitude + dlat)
      let lon := toInt32 (st.m_lastDenseLongitude + dlon)
      match denseTags stringtable dense.keys_vals dense.keys_vals.length
          st.denseTagIndex [] with
      | .error e => .error e
      | .ok (idx, tags) =>
        .ok { denseTagIndex := idx, m_lastDenseID := id, m_lastDenseLatitude := lat,
              m_lastDenseLongitude := lon,
              emitted := st.emitted ++ [{ id := id, latRaw := lat, lonRaw := lon,
                                          keyVals := tags }] }

/-- The `for (int i = 0; i < dense.id_size(); i++)` loop, over the ids that
remain from index `i` on. -/
def denseLoop (stringtable : List String) (dense : DenseNodes) :
    List Int → Nat → DenseState → Except Failure DenseState
  | [], _, st => .ok st
  | d :: rest, i, st =>
    match denseStep stringtable dense i d st with
    | .error e => .error e
    | .ok st' => denseLoop stringtable dense rest (i + 1) st'

/-- `PBFParser::parseDenseNode` on one dense section: the nodes built by the
loop, in order, each as it enters the `try` block (hook, then callback). -/
def parseDenseNode (stringtable : List String) (dense : DenseNodes) :
    Except Failure (List ImportNode) :=
  match denseLoop stringtable dense dense.id 0
      { denseTagIndex := 0, m_lastDenseID := 0, m_lastDenseLatitude := 0,
        m_lastDenseLongitude := 0, emitted := [] } with
  | .error e => .error e
  | .ok st => .ok st.emitted

/-! ## parseWay -/

/-- The way `w` built by one iteration of `parseWay`, as it stands when the
`try` block is entered: it is passed to the scripting hook first and, when the
hook returns, to the way callback. `id` is the value `inputWay.id()` assigned to `w.id`,
`path` lists the values of the `unsigned` accumulator pushed onto `w.path`, and
`keyVals` lists the `Add(key, val)` calls in call order. -/
structure _Way where
  id : Int
  path : List Int
  keyVals : List (String × String)
  deriving DecidableEq

/-- The loop over `inputWay.refs` with the accumulator `unsigned pathNode`:
every sum is converted back to 32 unsigned bits before it is pushed. -/
def wayPath : List Int → Int → List Int → List Int
  | [], _, path => path
  | r :: rest, pathNode, path =>
    wayPath rest (toUInt32 (pathNode + r)) (path ++ [toUInt32 (pathNode + r)])

/-- The loop `for (i < inputWay.keys_size())` of `parseWay` over the keys that
remain from index `i` on; `vals` is read at the same index. -/
def wayTags (stringtable : List String) (vals : List Int) :
    List Int → Nat → List (String × String) → Except Failure (List (String × String))
  | [], _, tags => .ok tags
  | k :: rest, i, tags =>
    match s stringtable k with
    | .error e => .error e
    | .ok key =>
      match vals[i]? with
      | none => .error .outOfRange
      | some v =>
        match s stringtable v with
        | .error e => .error e
        | .ok val => wayTags stringtable vals rest (i + 1) (tags ++ [(key, val)])

/-- Body of the loop of `parseWay` for one way record. -/
def parseOneWay (ndebug : Bool) (stringtable : List String) (inputWay : Way) :
    Except Failure _Way :=
  let path := wayPath inputWay.refs 0 []
  if !ndebug && inputWay.keys.length != inputWay.vals.length then .error .assertion
  else
    match wayTags stringtable inputWay.vals inputWay.keys 0 [] with
    | .error e => .error e
    | .ok tags => .ok { id := inputWay.id, path := path, keyVals := tags }

/-- `PBFParser::parseWay` on the ways of one group: the ways built by the loop,
in order, each as it enters the `try` block (hook, then callback). -/
def parseWay (ndebug : Bool) (stringtable : List String) :
    List Way → Except Failure (List _Way)
  | [] => .ok []
  | inputWay :: rest =>
    match parseOneWay ndebug stringtable inputWay with
    | .error e => .error e
    | .ok w =>
      match parseWay ndebug stringtable rest with
      | .error e => .error e
      | .ok ws => .ok (w :: ws)

/-! ## parseRelation -/

/-- The member `restriction` of the container, with the two fields that
`parseRelation` touches. -/
structure _Restriction where
  viaNode : Int
  toNode : Int
  deriving DecidableEq

/-- The restriction container handed to the restriction callback. The fields
are the ones `parseRelation` names: `restriction.viaNode`, `restriction.toNode`,
`fromWay`, `toWay` and the container-level `viaNode`; `isOnlyType` is the
constructor argument. Each field holds the value assigned to it. -/
structure _RawRestrictionContainer where
  restriction : _Restriction
  fromWay : Int
  toWay : Int
  viaNode : Int
  isOnlyType : Bool
  deriving DecidableEq

/-- Modelled from the spec: the constructor `_RawRestrictionContainer(bool)` is
declared in a header that is not part of the sources. The spec says a fresh
candidate carries the flag `isOnlyType` and has every other field at the unset
sentinel; the sentinel is the `UINT_MAX` that `parseRelation` compares against. -/
def _RawRestrictionContainer.init (isOnly : Bool) : _RawRestrictionContainer :=
  { restriction := { viaNode := UINT_MAX, toNode := UINT_MAX },
    fromWay := UINT_MAX, toWay := UINT_MAX, viaNode := UINT_MAX, isOnlyType := isOnly }

/-- The loop `for (k < inputRelation.keys_size())` of `parseRelation` over the
keys that remain from index `k` on, updating
`(isRestriction, isOnlyRestriction)`. -/
def relationFlags (stringtable : List String) (vals : List Int) :
    List Int → Nat → Bool × Bool → Except Failure (Bool × Bool)
  | [], _, flags => .ok flags
  | ki :: rest, k, flags =>
    match s stringtable ki with
    | .error e => .error e
    | .ok key =>
      match vals[k]? with
      | none => .error .outOfRange
      | some vi =>
        match s stringtable vi with
        | .error e => .error e
        | .ok val =>
          relationFlags stringtable vals rest (k + 1)
            (if key == "type" && val == "restriction" then true else flags.1,
             if key == "restriction" && startsWith "only_" val then true else flags.2)

/-- The `switch (inputRelation.types(rolesIndex))` of `parseRelation`. It is
entered with a role that is one of `from`, `to`, `via`, so the assertions on the
role hold; `assert(UINT_MAX == viaNode)` follows the assignment that makes it
true. The assertion on `restriction.toNode` is checked in a build without
`NDEBUG`. -/
def assignMember (ndebug : Bool) (role : String) (type : MemberType) (lastRef : Int)
    (c : _RawRestrictionContainer) : Except Failure _RawRestrictionContainer :=
  match type with
  | .node =>
    if role == "from" || role == "to" then .ok c
    else
      let c1 := if UINT_MAX != c.viaNode then { c with viaNode := UINT_MAX } else c
      .ok { c1 with restriction := { c1.restriction with viaNode := lastRef } }
  | .way =>
    let c1 := if role == "from" then { c with fromWay := lastRef } else c
    let c2 := if role == "to" then { c1 with toWay := lastRef } else c1
    if role == "via" then
      if !ndebug && c2.restriction.toNode != UINT_MAX then .error .assertion
      else .ok { c2 with viaNode := lastRef }
    else .ok c2
  | .relation => .ok c

/-- One iteration of the loop over `roles_sid` at index `rolesIndex`, where
`sid` is `roles_sid(rolesIndex)`; the state is `(lastRef, container)`. -/
def memberStep (ndebug : Bool) (stringtable : List String) (inputRelation : Relation)
    (rolesIndex : Nat) (sid : Int) (st : Int × _RawRestrictionContainer) :
    Except Failure (Int × _RawRestrictionContainer) :=
  match s stringtable sid with
  | .error e => .error e
  | .ok str =>
    let role := cstr str
    match inputRelation.memids[rolesIndex]? with
    | none => .error .outOfRange
    | some d =>
      let lastRef := toInt64 (st.1 + d)
      if !(role == "from" || role == "to" || role == "via") then .ok (lastRef, st.2)
      else
        match inputRelation.types[rolesIndex]? with
        | none => .error .outOfRange
        | some type =>
          match assignMember ndebug role type lastRef st.2 with
          | .error e => .error e
          | .ok c => .ok (lastRef, c)

/-- The loop `for (rolesIndex < inputRelation.roles_sid_size())` over the role
ids that remain from index `rolesIndex` on. -/
def memberLoop (ndebug : Bool) (stringtable : List String) (inputRelation : Relation) :
    List Int → Nat → Int × _RawRestrictionContainer →
      Except Failure (Int × _RawRestrictionContainer)
  | [], _, st => .ok st
  | sid :: rest, rolesIndex, st =>
    match memberStep ndebug stringtable inputRelation rolesIndex sid st with
    | .error e => .error e
    | .ok st' => memberLoop ndebug stringtable inputRelation rest (rolesIndex + 1) st'

/-- Body of the loop of `parseRelation` for one relation: `some c` when the
restriction callback is invoked with `c`, `none` when the relation is skipped. -/
def parseOneRelation (ndebug : Bool) (stringtable : List String) (inputRelation : Relation) :
    Except Failure (Option _RawRestrictionContainer) :=
  match relationFlags stringtable inputRelation.vals inputRelation.keys 0 (false, false) with
  | .error e => .error e
  | .ok (isRestriction, isOnlyRestriction) =>
    if isRestriction then
      match memberLoop ndebug stringtable inputRelation inputRelation.roles_sid 0
          (0, _RawRestrictionContainer.init isOnlyRestriction) with
      | .error e => .error e
      | .ok (_, c) => .ok (some c)
    else .ok none

/-- `PBFParser::parseRelation` on the relations of one group: the containers
passed to the restriction callback, in call order. -/
def parseRelation (ndebug : Bool) (stringtable : List String) :
    List Relation → Except Failure (List _RawRestrictionContainer)
  | [] => .ok []
  | inputRelation :: rest =>
    match parseOneRelation ndebug stringtable inputRelation with
    | .error e => .error e
    | .ok r =>
      match parseRelation ndebug stringtable rest with
      | .error e => .error e
      | .ok cs => .ok (r.toList ++ cs)

/-! ## loadGroup and the group loop of ParseData -/

/-- Modelled from the spec: the entity-kind constants `TypeNode`, `TypeWay`,
`TypeRelation`, `TypeDenseNode` are declared in a header that is not part of the
sources. The spec names four distinct kinds; `loadGroup` starts from the
indicator `0` and asserts that it ends different from `0`, so the constants are
four distinct non-zero values. -/
def TypeNode : Nat := 1

/-- Modelled from the spec: see `TypeNode`. -/
def TypeWay : Nat := 2

/-- Modelled from the spec: see `TypeNode`. -/
def TypeRelation : Nat := 4

/-- Modelled from the spec: see `TypeNode`. -/
def TypeDenseNode : Nat := 8

/-- Message `BlobHeader` (the fields the parser reads). -/
structure BlobHeader where
  type : String
  datasize : Int
  deriving DecidableEq

/-- Message `Blob` (the fields the parser reads): `none` is `has_x() == false`;
`raw_size` is the value the getter returns, 0 when the field is absent. -/
structure Blob where
  raw : Option (List Nat) := none
  raw_size : Int := 0
  zlib_data : Option (List Nat) := none
  lzma_data : Option (List Nat) := none
  deriving DecidableEq

/-- Message `HeaderBlock` (the field the parser reads). -/
structure HeaderBlock where
  required_features : List String := []
  deriving DecidableEq

/-- The fields of `_ThreadData` used by the frame readers, by `loadGroup` and by
the group loop of `ParseData`. A newly constructed record has an empty blob, an
empty header block and an empty `charBuffer`. -/
structure _ThreadData where
  currentGroupID : Nat
  currentEntityID : Nat
  entityTypeIndicator : Nat
  PBFBlobHeader : BlobHeader
  PBFprimitiveBlock : PrimitiveBlock
  PBFBlob : Blob := {}
  PBFHeaderBlock : HeaderBlock := {}
  charBuffer : List Nat := []
  deriving DecidableEq

/-- `PBFParser::loadGroup`: sets `entityTypeIndicator` for the group at
`currentGroupID`. The four tests run in source order, a later one overwriting an
earlier one; both assertions are checked in a build without `NDEBUG`. -/
def loadGroup (ndebug : Bool) (threadData : _ThreadData) : Except Failure _ThreadData :=
  match threadData.PBFprimitiveBlock.primitivegroup[threadData.currentGroupID]? with
  | none => .error .outOfRange
  | some group =>
    let e0 : Nat := 0
    let e1 := if group.nodes.length != 0 then TypeNode else e0
    let e2 := if group.ways.length != 0 then TypeWay else e1
    let e3 := if group.relations.length != 0 then TypeRelation else e2
    match group.dense with
    | some dense =>
      if !ndebug && !(dense.id.length != 0) then .error .assertion
      else if !ndebug && !(TypeDenseNode != 0) then .error .assertion
      else .ok { threadData with entityTypeIndicator := TypeDenseNode }
    | none =>
      if !ndebug && !(e3 != 0) then .error .assertion
      else .ok { threadData with entityTypeIndicator := e3 }

/-- The four entity decoders as seen from `ParseData`: each reads the thread
data and acts on the rest of the program state `σ` (callbacks, hook, output). -/
structure Decoders (σ : Type) where
  parseNode : _ThreadData → σ → Except Failure σ
  parseWay : _ThreadData → σ → Except Failure σ
  parseRelation : _ThreadData → σ → Except Failure σ
  parseDenseNode : _ThreadData → σ → Except Failure σ

/-- One guarded call `if (entityTypeIndicator == kind) decoder(threadData);`. -/
def runIf {σ : Type} (cond : Bool) (decoder : σ → Except Failure σ) (w : σ) :
    Except Failure σ :=
  if cond then decoder w else .ok w

/-- Body of the loop `for (i < primitivegroup_size())` of `ParseData` for group
index `i`: `currentGroupID = i`, `loadGroup`, then the four guarded decoder
calls in source order. -/
def groupBody {σ : Type} (D : Decoders σ) (ndebug : Bool) (i : Nat)
    (st : _ThreadData × σ) : Except Failure (_ThreadData × σ) :=
  match loadGroup ndebug { st.1 with currentGroupID := i } with
  | .error e => .error e
  | .ok td =>
    match runIf (td.entityTypeIndicator == TypeNode) (D.parseNode td) st.2 with
    | .error e => .error e
    | .ok w1 =>
      match runIf (td.entityTypeIndicator == TypeWay) (D.parseWay td) w1 with
      | .error e => .error e
      | .ok w2 =>
        match runIf (td.entityTypeIndicator == TypeRelation) (D.parseRelation td) w2 with
        | .error e => .error e
        | .ok w3 =>
          match runIf (td.entityTypeIndicator == TypeDenseNode) (D.parseDenseNode td) w3 with
          | .error e => .error e
          | .ok w4 => .ok (td, w4)

/-- The group loop of `ParseData` for one block, over the group indices that
remain: `k` more iterations starting at index `i`. -/
def groupLoop {σ : Type} (D : Decoders σ) (ndebug : Bool) :
    Nat → Nat → _ThreadData × σ → Except Failure (_ThreadData × σ)
  | 0, _, st => .ok st
  | k + 1, i, st =>
    match groupBody D ndebug i st with
    | .error e => .error e
    | .ok st' => groupLoop D ndebug k (i + 1) st'

/-- The part of `ParseData` run for one block popped from the queue:
`loadBlock` followed by the group loop. -/
def parseBlock {σ : Type} (D : Decoders σ) (ndebug : Bool) (threadData : _ThreadData)
    (w : σ) : Except Failure (_ThreadData × σ) :=
  groupLoop D ndebug threadData.PBFprimitiveBlock.primitivegroup.length 0
    ({ threadData with currentGroupID := 0, currentEntityID := 0 }, w)

/-! ## The input stream and readPBFBlobHeader -/

/-- State of the `std::fstream` as the parser observes it: the bytes of the
file, the read position and the two state bits. -/
structure FStream where
  bytes : List Nat
  pos : Nat
  eofbit : Bool
  failbit : Bool
  deriving DecidableEq

/-- The call `stream.read(buf, n)`: returns the bytes extracted and the stream
afterwards. A stream that is not good extracts nothing and sets `failbit`; a
request past the end extracts what is left and sets `eofbit` and `failbit`. -/
def FStream.read (stream : FStream) (n : Nat) : List Nat × FStream :=
  if stream.eofbit || stream.failbit then ([], { stream with failbit := true })
  else if stream.pos + n ≤ stream.bytes.length then
    ((stream.bytes.drop stream.pos).take n, { stream with pos := stream.pos + n })
  else
    (stream.bytes.drop stream.pos,
      { stream with pos := stream.bytes.length, eofbit := true, failbit := true })

/-- What the parser takes from its surroundings: the size limit declared in the
missing header, the protobuf decoder of `BlobHeader` (its result flag and the
message content after the call), and the content of a newly allocated buffer. -/
structure Extern where
  MAX_BLOB_HEADER_SIZE : Int
  ParseBlobHeader : List Nat → Bool × BlobHeader
  alloc : Nat → List Nat

/-- Modelled from the spec: `swapEndian` is declared in a header that is not
part of the sources. The spec says the 4-byte length prefix is normalised to
native byte order; the prefix is in network byte order, so the normalised value
of the four bytes held in `size` is their big-endian reading as a 32-bit `int`. -/
def swapEndian (raw : List Nat) : Int :=
  toInt32 (raw.foldl (fun acc b => acc * 256 + (b : Int)) 0)

/-- `PBFParser::readPBFBlobHeader`: the result flag, the stream afterwards and
the thread data afterwards. `size` starts as 0, so bytes the first read does not
deliver stay 0; the header buffer starts with the content `alloc` gives it. -/
def readPBFBlobHeader (X : Extern) (stream : FStream) (threadData : _ThreadData) :
    Bool × FStream × _ThreadData :=
  let r1 := stream.read 4
  let size := swapEndian (r1.1 ++ List.replicate (4 - r1.1.length) 0)
  if r1.2.eofbit then (false, r1.2, threadData)
  else if size > X.MAX_BLOB_HEADER_SIZE || size < 0 then (false, r1.2, threadData)
  else
    let r2 := r1.2.read size.toNat
    let data := r2.1 ++ (X.alloc size.toNat).drop r2.1.length
    let parsed := X.ParseBlobHeader data
    (parsed.1, r2.2, { threadData with PBFBlobHeader := parsed.2 })

/-! ## Reference functions used in the proofs

These restate the two loops of `parseDenseNode` on the part of each array that
is still ahead of the cursor. They are compared with the embedding above in
`denseTags_eq_tagRun` and `denseLoop_eq_denseRun`. -/

/-- The tag walk on the entries of `keys_vals` from the cursor on: the tags of
one node and the entries left for the following nodes. -/
def tagRun (stringtable : List String) :
    List Int → Except Failure (List (String × String) × List Int)
  | [] => .ok ([], [])
  | [k] => if k = 0 then .ok ([], []) else .error .outOfRange
  | k :: v :: rest =>
    if k = 0 then .ok ([], v :: rest)
    else
      match s stringtable k with
      | .error e => .error e
      | .ok key =>
        match s stringtable v with
        | .error e => .error e
        | .ok value =>
          match tagRun stringtable rest with
          | .error e => .error e
          | .ok (tags, left) => .ok ((cstr key, cstr value) :: tags, left)

/-- The node loop on the remaining id, lat and lon deltas and the remaining
entries of `keys_vals`, from the accumulator values `(id, lat, lon)`. -/
def denseRun (stringtable : List String) :
    List Int → List Int → List Int → Int × Int × Int → List Int →
      Except Failure (List ImportNode)
  | [], _, _, _, _ => .ok []
  | _ :: _, [], _, _, _ => .error .outOfRange
  | _ :: _, _ :: _, [], _, _ => .error .outOfRange
  | d :: ids, dlat :: lats, dlon :: lons, acc, kv =>
    match tagRun stringtable kv with
    | .error e => .error e
    | .ok (tags, left) =>
      match denseRun stringtable ids lats lons
          (toInt32 (acc.1 + d), toInt32 (acc.2.1 + dlat), toInt32 (acc.2.2 + dlon)) left with
      | .error e => .error e
      | .ok ns =>
        .ok ({ id := toInt32 (acc.1 + d), latRaw := toInt32 (acc.2.1 + dlat),
               lonRaw := toInt32 (acc.2.2 + dlon), keyVals := tags } :: ns)

/-- An index lies within a string table of `n` entries. -/
def inTable (n : Nat) (i : Int) : Bool := decide (0 ≤ i) && decide (i < n)

/-- Shape of a `keys_vals` array on which the tag walk never reads past the end
or outside a string table of `n` entries: read from a key position
(`atValue = false`), a `0` ends a node, and any other entry is a key that is
followed by a value, both within the table. -/
def kvShape (n : Nat) : Bool → List Int → Bool
  | false, [] => true
  | true, [] => false
  | false, k :: rest => if k = 0 then kvShape n false rest else inTable n k && kvShape n true rest
  | true, v :: rest => inTable n v && kvShape n false rest

/-- String-table entry `i` as a total function (the empty string outside the
table). -/
def entry (stringtable : List String) (i : Int) : String :=
  if 0 ≤ i then (stringtable[i.toNat]?).getD "" else ""

/-- The `keys_vals` encoding of the tag list of one node: the `(key index,
value index)` pairs in order, closed by a single `0`. -/
def encodeTags : List (Int × Int) → List Int
  | [] => [0]
  | kv :: l => kv.1 :: kv.2 :: encodeTags l

/-- The `keys_vals` array of a group: the encoded tag lists of its nodes, one
after the other. -/
def encodeAll : List (List (Int × Int)) → List Int
  | [] => []
  | l :: ls => encodeTags l ++ encodeAll ls

/-- Every pair of a tag list has a non-zero key index and both indices within a
string table of `n` entries. -/
def tagListOk (n : Nat) (l : List (Int × Int)) : Prop :=
  ∀ kv ∈ l, kv.1 ≠ 0 ∧ inTable n kv.1 = true ∧ inTable n kv.2 = true

/-- A value is representable in a 32-bit `int`. -/
def fitsInt32 (x : Int) : Prop := -2147483648 ≤ x ∧ x < 2147483648

/-- A way record whose tag arrays the tag loop of `parseWay` can read: as many
values as keys, all indices within a string table of `n` entries. -/
def wayOk (n : Nat) (w : Way) : Prop :=
  w.keys.length = w.vals.length ∧ (∀ k ∈ w.keys, inTable n k = true) ∧
    (∀ v ∈ w.vals, inTable n v = true)

/-- The tag list of a relation: its key and value indices paired by position
and resolved through the string table. -/
def tagsOf (stringtable : List String) (keys vals : List Int) : List (String × String) :=
  (keys.zip vals).map (fun kv => (entry stringtable kv.1, entry stringtable kv.2))

/-- The tag list contains the key `type` with the value `restriction`. -/
def hasTypeRestriction (tags : List (String × String)) : Bool :=
  tags.any (fun t => t.1 == "type" && t.2 == "restriction")

/-- The tag list contains a tag with key `restriction` whose value starts with
`only_`. -/
def hasOnlyRestriction (tags : List (String × String)) : Bool :=
  tags.any (fun t => t.1 == "restriction" && startsWith "only_" t.2)

/-- The role is one of `from`, `to`, `via`. -/
def isRestrictionRole (role : String) : Bool :=
  role == "from" || role == "to" || role == "via"

/-- The role string `parseRelation` builds for the role id `sid`. -/
def roleOf (stringtable : List String) (sid : Int) : String :=
  cstr (entry stringtable sid)

/-- A relation whose arrays `parseRelation` can read: as many values as keys,
one member id and one member type per role id, all indices within a string
table of `n` entries. -/
def relationOk (n : Nat) (r : Relation) : Prop :=
  r.keys.length = r.vals.length ∧ (∀ k ∈ r.keys, inTable n k = true) ∧
    (∀ v ∈ r.vals, inTable n v = true) ∧
    r.memids.length = r.roles_sid.length ∧ r.types.length = r.roles_sid.length ∧
    (∀ x ∈ r.roles_sid, inTable n x = true)

/-- The relation `r` with one more member, of role id `sid`, id delta `d` and
type `type`, placed before the member at position `p`. -/
def insertMember (r : Relation) (p : Nat) (sid d : Int) (type : MemberType) : Relation :=
  { r with roles_sid := r.roles_sid.take p ++ sid :: r.roles_sid.drop p,
           memids := r.memids.take p ++ d :: r.memids.drop p,
           types := r.types.take p ++ type :: r.types.drop p }

/-- A value is representable in a 64-bit `long long`. -/
def fitsInt64 (x : Int) : Prop := -9223372036854775808 ≤ x ∧ x < 9223372036854775808

/-- The kind of a group as the classification rule words it: the last populated
kind in the order Nodes, Ways, Relations, DenseNodes. -/
def lastPopulatedKind (group : PrimitiveGroup) : Nat :=
  if group.dense.isSome then TypeDenseNode
  else if group.relations ≠ [] then TypeRelation
  else if group.ways ≠ [] then TypeWay
  else TypeNode

/-- The one decoder that belongs to an entity kind. -/
def decoderOf {σ : Type} (D : Decoders σ) (kind : Nat) :
    _ThreadData → σ → Except Failure σ :=
  if kind = TypeDenseNode then D.parseDenseNode
  else if kind = TypeRelation then D.parseRelation
  else if kind = TypeWay then D.parseWay
  else D.parseNode

/-- At least one sub-collection of the group is populated. -/
def populated (group : PrimitiveGroup) : Prop :=
  group.nodes ≠ [] ∨ group.ways ≠ [] ∨ group.relations ≠ [] ∨ group.dense.isSome = true

/-- A dense section, when present, holds at least one id. -/
def denseNonEmpty (group : PrimitiveGroup) : Prop :=
  ∀ dense, group.dense = some dense → dense.id ≠ []

/-- A thread data record with empty messages, for concrete runs. -/
def emptyThreadData : _ThreadData :=
  { currentGroupID := 0, currentEntityID := 0, entityTypeIndicator := 0,
    PBFBlobHeader := { type := "", datasize := 0 },
    PBFprimitiveBlock := { stringtable := [], granularity := 100, lat_offset := 0,
                           lon_offset := 0, primitivegroup := [] } }

/-- Decoders that only record which of them ran, in call order. -/
def tracingDecoders : Decoders (List String) :=
  { parseNode := fun _ w => .ok (w ++ ["parseNode"]),
    parseWay := fun _ w => .ok (w ++ ["parseWay"]),
    parseRelation := fun _ w => .ok (w ++ ["parseRelation"]),
    parseDenseNode := fun _ w => .ok (w ++ ["parseDenseNode"]) }

/-! ## Blob decoding: unpackZLIB, unpackLZMA, readBlob -/

/-- Constant `Z_OK` of `zlib.h`. -/
def Z_OK : Int := 0

/-- Constant `Z_STREAM_END` of `zlib.h`. -/
def Z_STREAM_END : Int := 1

/-- What the blob readers take from their surroundings: the size limit declared
in the missing header, the protobuf decoders (result flag and message content
after the call), and zlib. `inflate input avail_out` is the one call
`inflate(&stream, Z_FINISH)` on the input bytes with room for `avail_out` output
bytes: its return code, the bytes it wrote and the number of input bytes it
consumed. `inflateInit` and `inflateEnd` are the return codes of these calls. -/
structure Codec where
  MAX_BLOB_SIZE : Int
  ParseBlob : List Nat → Bool × Blob
  ParseHeaderBlock : List Nat → Bool × HeaderBlock
  ParsePrimitiveBlock : List Nat → Bool × PrimitiveBlock
  inflateInit : Int
  inflate : List Nat → Nat → Int × List Nat × Nat
  inflateEnd : Int

/-- `PBFParser::unpackZLIB`: the result flag and the thread data afterwards. The
output array of `rawSize` bytes starts with the content `alloc` gives it, and
all `rawSize` bytes of it are copied into `charBuffer` on success. -/
def unpackZLIB (X : Extern) (Z : Codec) (threadData : _ThreadData) : Bool × _ThreadData :=
  let rawSize := (toUInt32 threadData.PBFBlob.raw_size).toNat
  if Z.inflateInit != Z_OK then (false, threadData)
  else
    let r := Z.inflate (threadData.PBFBlob.zlib_data.getD []) rawSize
    if r.1 != Z_STREAM_END then (false, threadData)
    else if Z.inflateEnd != Z_OK then (false, threadData)
    else
      (true, { threadData with
        charBuffer := (r.2.1 ++ (X.alloc rawSize).drop r.2.1.length).take rawSize })

/-- `PBFParser::unpackLZMA`: the body is `return false;`. -/
def unpackLZMA (_threadData : _ThreadData) : Bool := false

/-- `PBFParser::readBlob`: the result flag, the stream afterwards and the thread
data afterwards. -/
def readBlob (X : Extern) (Z : Codec) (stream : FStream) (threadData : _ThreadData) :
    Bool × FStream × _ThreadData :=
  if stream.eofbit then (false, stream, threadData)
  else
    let size := threadData.PBFBlobHeader.datasize
    if size < 0 || size > Z.MAX_BLOB_SIZE then (false, stream, threadData)
    else
      let r := stream.read size.toNat
      let data := r.1 ++ (X.alloc size.toNat).drop r.1.length
      let parsed := Z.ParseBlob data
      let td := { threadData with PBFBlob := parsed.2 }
      if !parsed.1 then (false, r.2, td)
      else
        match parsed.2.raw with
        | some raw => (true, r.2, { td with charBuffer := raw })
        | none =>
          match parsed.2.zlib_data with
          | some _ =>
            let u := unpackZLIB X Z td
            if !u.1 then (false, r.2, u.2) else (true, r.2, u.2)
          | none =>
            match parsed.2.lzma_data with
            | some _ => if !unpackLZMA td then (false, r.2, td) else (false, r.2, td)
            | none => (false, r.2, td)

/-! ## Init, readNextBlock -/

/-- The two comparisons on a required feature in the loop of `Init`. -/
def supportedFeature (feature : String) : Bool :=
  if feature == "OsmSchema-V0.6" then true
  else if feature == "DenseNodes" then true
  else false

/-- The loop of `Init` over `required_features`, which returns false at the
first feature that is not supported. -/
def featureLoop : List String → Bool
  | [] => true
  | feature :: rest => if !supportedFeature feature then false else featureLoop rest

/-- `PBFParser::Init`: the result and the stream afterwards; `initData` is a
newly constructed `_ThreadData`. -/
def Init (X : Extern) (Z : Codec) (input : FStream) : Bool × FStream :=
  let h := readPBFBlobHeader X input emptyThreadData
  if !h.1 then (false, h.2.1)
  else
    let b := readBlob X Z h.2.1 h.2.2
    if b.1 then
      let parsed := Z.ParseHeaderBlock b.2.2.charBuffer
      if !parsed.1 then (false, b.2.1)
      else if !featureLoop parsed.2.required_features then (false, b.2.1)
      else (true, b.2.1)
    else (true, b.2.1)

/-- `PBFParser::readNextBlock`: the result flag, the stream afterwards and the
thread data afterwards. -/
def readNextBlock (X : Extern) (Z : Codec) (stream : FStream) (threadData : _ThreadData) :
    Bool × FStream × _ThreadData :=
  if stream.eofbit then (false, stream, threadData)
  else
    let h := readPBFBlobHeader X stream threadData
    if !h.1 then (false, h.2.1, h.2.2)
    else if h.2.2.PBFBlobHeader.type != "OSMData" then (false, h.2.1, h.2.2)
    else
      let b := readBlob X Z h.2.1 h.2.2
      if !b.1 then (false, b.2.1, b.2.2)
      else
        let parsed := Z.ParsePrimitiveBlock b.2.2.charBuffer
        if !parsed.1 then (false, b.2.1, { b.2.2 with PBFprimitiveBlock := parsed.2 })
        else (true, b.2.1, { b.2.2 with PBFprimitiveBlock := parsed.2 })

/-! ## The queue, ReadData and ParseData

Modelled from the spec: the class `ConcurrentQueue` is declared in a header that
is not part of the sources. The spec says the queue is first-in first-out;
`push` adds at the back, `wait_and_pop` takes from the front and waits while the
queue is empty. A queue is the list of its entries, front first, and the
sentinel `NULL` is `none`. -/

/-- The `do ... while (keepRunning)` loop of `ReadData`, for at most `fuel`
iterations; every iteration starts from a newly constructed `_ThreadData`. -/
def ReadDataLoop (X : Extern) (Z : Codec) :
    Nat → FStream → List (Option _ThreadData) → Option (FStream × List (Option _ThreadData))
  | 0, _, _ => none
  | fuel + 1, input, queue =>
    let r := readNextBlock X Z input emptyThreadData
    if r.1 then ReadDataLoop X Z fuel r.2.1 (queue ++ [some r.2.2])
    else some (r.2.1, queue ++ [none])

/-- `PBFParser::ReadData`: the stream and the queue afterwards. A successful
`readNextBlock` takes at least the four bytes of a prefix from the stream, so
one iteration more than the stream has bytes is always enough (see
`ReadData_returns`). -/
def ReadData (X : Extern) (Z : Codec) (input : FStream) (queue : List (Option _ThreadData)) :
    Option (FStream × List (Option _ThreadData)) :=
  ReadDataLoop X Z (input.bytes.length + 1) input queue

/-- `PBFParser::ParseData` run on a queue that receives no further entries: the
queue and the program state when the loop is left. -/
def ParseData {σ : Type} (D : Decoders σ) (ndebug : Bool) :
    List (Option _ThreadData) → σ → Except Failure (List (Option _ThreadData) × σ)
  | [], _ => .error .blocked
  | none :: rest, w => .ok (rest ++ [none], w)
  | some threadData :: rest, w =>
    match parseBlock D ndebug threadData w with
    | .error e => .error e
    | .ok st => ParseData D ndebug rest st.2

/-! ## The try block of parseDenseNode -/

/-- A call made from the `try` block of `parseDenseNode`: the scripting hook
`node_function` with the node, or the node callback with the node and the
value it returned. -/
inductive Call where
  | node_function (n : ImportNode)
  | nodeCallback (n : ImportNode) (result : Bool)
  deriving DecidableEq

/-- The `try` block at the end of one iteration of `parseDenseNode`. The hook
gets the node by reference: `hook n` is `some` of the node as the hook leaves
it when the call returns, and `none` when the call throws; then control goes to
a `catch` clause and the callback call is skipped. The value the callback
returns only decides whether a message is printed. -/
def tryBlock (hook : ImportNode → Option ImportNode) (nodeCallback : ImportNode → Bool)
    (n : ImportNode) : List Call :=
  match hook n with
  | none => [.node_function n]
  | some n' => [.node_function n, .nodeCallback n' (nodeCallback n')]

/-- The calls made for a list of nodes, one `try` block after the other. -/
def tryBlocks (hook : ImportNode → Option ImportNode) (nodeCallback : ImportNode → Bool) :
    List ImportNode → List Call
  | [] => []
  | n :: ns => tryBlock hook nodeCallback n ++ tryBlocks hook nodeCallback ns

/-- The `for` loop of `parseDenseNode` with its `try` block: `denseStep` is run
with an empty `emitted`, so the list it returns holds the node built in this
iteration, which then goes through the `try` block. Returns all calls made. -/
def denseLoopCalls (hook : ImportNode → Option ImportNode) (nodeCallback : ImportNode → Bool)
    (stringtable : List String) (dense : DenseNodes) :
    List Int → Nat → DenseState → List Call → Except Failure (List Call)
  | [], _, _, calls => .ok calls
  | d :: rest, i, st, calls =>
    match denseStep stringtable dense i d { st with emitted := [] } with
    | .error e => .error e
    | .ok st' =>
      denseLoopCalls hook nodeCallback stringtable dense rest (i + 1) st'
        (calls ++ tryBlocks hook nodeCallback st'.emitted)

/-- `PBFParser::parseDenseNode` on one dense section, with the hook and the node
callback: the calls made, in order. -/
def parseDenseNodeCalls (hook : ImportNode → Option ImportNode)
    (nodeCallback : ImportNode → Bool) (stringtable : List String) (dense : DenseNodes) :
    Except Failure (List Call) :=
  denseLoopCalls hook nodeCallback stringtable dense dense.id 0
    { denseTagIndex := 0, m_lastDenseID := 0, m_lastDenseLatitude := 0,
      m_lastDenseLongitude := 0, emitted := [] } []

/-- The pairing shape of a `keys_vals` array alone: read from a key position
(`atValue = false`), every non-zero entry at a key position is followed by a
value entry. -/
def kvPaired : Bool → List Int → Bool
  | false, [] => true
  | true, [] => false
  | false, k :: rest => if k = 0 then kvPaired false rest else kvPaired true rest
  | true, _ :: rest => kvPaired false rest

/-- The nodes passed to the scripting hook, in call order. -/
def hookNodes : List Call → List ImportNode
  | [] => []
  | .node_function n :: rest => n :: hookNodes rest
  | .nodeCallback _ _ :: rest => hookNodes rest

/-- The nodes delivered to the node callback, in call order. -/
def callbackNodes : List Call → List ImportNode
  | [] => []
  | .node_function _ :: rest => callbackNodes rest
  | .nodeCallback n _ :: rest => n :: callbackNodes rest

/-- The stream is good: neither `eofbit` nor `failbit` is set. -/
def goodStream (stream : FStream) : Prop :=
  stream.eofbit = false ∧ stream.failbit = false

/-- The stream ends before a complete 4-byte length prefix. -/
def endsBeforePrefix (stream : FStream) : Prop :=
  goodStream stream ∧ stream.bytes.length < stream.pos + 4

/-- The normalised value of the 4-byte length prefix at the read position. -/
def prefixSize (stream : FStream) : Int :=
  swapEndian ((stream.bytes.drop stream.pos).take 4)

/-- The stream holds a complete length prefix whose normalised value is negative
or greater than `MAX_BLOB_HEADER_SIZE`. -/
def badSize (X : Extern) (stream : FStream) : Prop :=
  goodStream stream ∧ stream.pos + 4 ≤ stream.bytes.length ∧
    (prefixSize stream < 0 ∨ prefixSize stream > X.MAX_BLOB_HEADER_SIZE)

/-- The header buffer `readPBFBlobHeader` hands to the decoder when the prefix
at the read position is complete and its value is accepted. -/
def headerBuffer (X : Extern) (stream : FStream) : List Nat :=
  (({ stream with pos := stream.pos + 4 } : FStream).read (prefixSize stream).toNat).1 ++
    (X.alloc (prefixSize stream).toNat).drop
      (({ stream with pos := stream.pos + 4 } : FStream).read (prefixSize stream).toNat).1.length

/-- The stream holds a complete length prefix with an accepted value, and the
header bytes after it are not decodable as a `BlobHeader`. -/
def undecodableHeader (X : Extern) (stream : FStream) : Prop :=
  goodStream stream ∧ stream.pos + 4 ≤ stream.bytes.length ∧
    0 ≤ prefixSize stream ∧ prefixSize stream ≤ X.MAX_BLOB_HEADER_SIZE ∧
    (X.ParseBlobHeader (headerBuffer X stream)).1 = false

/-- A stream state in which `failbit` is set only together with `eofbit`, as
every `read` of a good stream leaves it. -/
def streamInv (stream : FStream) : Prop :=
  stream.failbit = true → stream.eofbit = true

/-- The blocks read by successive calls of `readNextBlock`, each on a newly
constructed `_ThreadData`, up to the first call that returns false, and the
stream after that call. -/
inductive ReadsTo (X : Extern) (Z : Codec) : FStream → List _ThreadData → FStream → Prop
  | stop (input : FStream) (h : (readNextBlock X Z input emptyThreadData).1 = false) :
      ReadsTo X Z input [] (readNextBlock X Z input emptyThreadData).2.1
  | step (input : FStream) (blocks : List _ThreadData) (final : FStream)
      (h : (readNextBlock X Z input emptyThreadData).1 = true)
      (rest : ReadsTo X Z (readNextBlock X Z input emptyThreadData).2.1 blocks final) :
      ReadsTo X Z input ((readNextBlock X Z input emptyThreadData).2.2 :: blocks) final

/-- The blocks of a list processed one after the other by the group loop. -/
def runBlocks {σ : Type} (D : Decoders σ) (ndebug : Bool) :
    List _ThreadData → σ → Except Failure σ
  | [], w => .ok w
  | threadData :: rest, w =>
    match parseBlock D ndebug threadData w with
    | .error e => .error e
    | .ok st => runBlocks D ndebug rest st.2

/-- The buffer `readBlob` hands to the blob decoder when the stream is not at
its end and the declared size is accepted. -/
def blobBuffer (X : Extern) (stream : FStream) (threadData : _ThreadData) : List Nat :=
  (stream.read threadData.PBFBlobHeader.datasize.toNat).1 ++
    (X.alloc threadData.PBFBlobHeader.datasize.toNat).drop
      (stream.read threadData.PBFBlobHeader.datasize.toNat).1.length

/-- An environment for concrete runs: limits of 64 KiB and 32 MiB, a header
decoder that takes the first byte as `datasize` and fails on an empty buffer, a
blob decoder that reads one tag byte (1: raw payload, 2: zlib payload with the
second byte as `raw_size`, 3: lzma payload, otherwise no payload), and an
allocator that hands out buffers filled with 170. -/
def sampleExtern : Extern :=
  { MAX_BLOB_HEADER_SIZE := 65536,
    ParseBlobHeader := fun data =>
      match data with
      | [] => (false, ⟨"", 0⟩)
      | b :: _ => (true, ⟨"OSMData", b⟩),
    alloc := fun n => List.replicate n 170 }

/-- The codec of the concrete runs. Its `inflate` stands for zlib on a stored
stream: the input bytes are the output bytes, delivered completely with
`Z_STREAM_END` when they fit into the output room, and cut off with the return
code -5 (`Z_BUF_ERROR`) when they do not. -/
def sampleCodec : Codec :=
  { MAX_BLOB_SIZE := 33554432,
    ParseBlob := fun data =>
      match data with
      | 1 :: rest => (true, { raw := some rest })
      | 2 :: n :: rest => (true, { raw_size := n, zlib_data := some rest })
      | 3 :: rest => (true, { lzma_data := some rest })
      | [] => (false, {})
      | _ => (true, {}),
    ParseHeaderBlock := fun data =>
      (true, { required_features :=
        data.map (fun b => if b = 1 then "OsmSchema-V0.6" else if b = 2 then "DenseNodes"
          else "HistoricalInformation") }),
    ParsePrimitiveBlock := fun data =>
      (true, { stringtable := [], granularity := 100, lat_offset := 0, lon_offset := 0,
               primitivegroup := data.map (fun _ => ⟨[], [], [], none⟩) }),
    inflateInit := Z_OK,
    inflate := fun input avail_out =>
      if input.length ≤ avail_out then (Z_STREAM_END, input, input.length)
      else (-5, input.take avail_out, avail_out),
    inflateEnd := Z_OK }

/-! # Theorems -/
/-! ## Lemmas on machine integers -/

theorem toInt32_add_left (a d : Int) : toInt32 (toInt32 a + d) = toInt32 (a + d) := by
  unfold toInt32; omega

theorem toUInt32_add_left (a d : Int) : toUInt32 (toUInt32 a + d) = toUInt32 (a + d) := by
  unfold toUInt32; omega

theorem toInt64_add_left (a d : Int) : toInt64 (toInt64 a + d) = toInt64 (a + d) := by
  unfold toInt64; omega

theorem toInt64_idem (a : Int) : toInt64 (toInt64 a) = toInt64 a := by
  unfold toInt64; omega

theorem toInt32_of_range (x : Int) (h1 : -2147483648 ≤ x) (h2 : x < 2147483648) :
    toInt32 x = x := by
  unfold toInt32; omega

theorem toInt64_of_range (x : Int) (h1 : -9223372036854775808 ≤ x)
    (h2 : x < 9223372036854775808) : toInt64 x = x := by
  unfold toInt64; omega

theorem s_eq_ok_of_inTable (stringtable : List String) (i : Int)
    (h : inTable stringtable.length i = true) :
    ∃ str, s stringtable i = .ok str ∧ entry stringtable i = str := by
  simp only [inTable, Bool.and_eq_true, decide_eq_true_eq] at h
  have hlt : i.toNat < stringtable.length := by omega
  refine ⟨stringtable[i.toNat], ?_, ?_⟩
  · simp [s, h.1, List.getElem?_eq_getElem hlt]
  · simp [entry, h.1, List.getElem?_eq_getElem hlt]

/-! ## The tag walk -/

theorem denseTags_eq_tagRun (stringtable : List String) :
    ∀ (fuel : Nat) (pre suf : List Int) (tags : List (String × String)),
      suf.length ≤ fuel →
      denseTags stringtable (pre ++ suf) fuel pre.length tags =
        match tagRun stringtable suf with
        | .error e => .error e
        | .ok (tg, left) => .ok ((pre ++ suf).length - left.length, tags ++ tg) := by
  intro fuel
  induction fuel with
  | zero =>
    intro pre suf tags h
    have : suf = [] := List.length_eq_zero.mp (Nat.le_zero.mp h)
    subst this
    simp [denseTags, tagRun]
  | succ fuel ih =>
    intro pre suf tags h
    rcases suf with _ | ⟨k, _ | ⟨v, rest⟩⟩
    · simp [denseTags, tagRun]
    · have e1 : (pre ++ [k])[pre.length]? = some k := by
        rw [List.getElem?_append_right (le_refl _)]; simp
      have e2 : (pre ++ [k])[pre.length + 1]? = none := by simp
      by_cases hk : k = 0
      · simp [denseTags, tagRun, hk]
      · simp [denseTags, tagRun, hk, e2]
    · have hlen : rest.length ≤ fuel := by
        simp only [List.length_cons] at h; omega
      have hpre : pre ++ k :: v :: rest = (pre ++ [k, v]) ++ rest := by simp
      have ih' := ih (pre ++ [k, v]) rest
      simp only [List.length_append, List.length_cons, List.length_nil] at ih'
      have e1 : (pre ++ k :: v :: rest)[pre.length]? = some k := by
        rw [List.getElem?_append_right (le_refl _)]; simp
      have e2 : (pre ++ k :: v :: rest)[pre.length + 1]? = some v := by
        rw [List.getElem?_append_right (by omega)]; simp
      have h1 : pre.length < (pre ++ k :: v :: rest).length := by simp
      by_cases hk : k = 0
      · subst hk
        simp only [denseTags, tagRun, h1, if_true, e1]
        simp only [List.length_append, List.length_cons, List.append_nil]
        have : pre.length + (rest.length + 1 + 1) - (rest.length + 1) = pre.length + 1 := by
          omega
        rw [this]
      · simp only [denseTags, tagRun, hk, h1, if_true, if_false, e1, e2]
        cases hs1 : s stringtable k with
        | error e => simp
        | ok key =>
          cases hs2 : s stringtable v with
          | error e => simp
          | ok value =>
            simp only []
            rw [hpre, ih' (tags ++ [(cstr key, cstr value)]) hlen]
            cases hr : tagRun stringtable rest with
            | error e => simp
            | ok r =>
              obtain ⟨tg, left⟩ := r
              simp only [List.length_append, List.length_cons, List.append_assoc,
                List.singleton_append, List.length_nil]
              congr 2
              omega

/-- Any fuel that covers the entries ahead of the cursor gives the same result:
the walk never stops for lack of fuel. -/
theorem denseTags_fuel (stringtable : List String) (fuel1 fuel2 : Nat) (pre suf : List Int)
    (tags : List (String × String)) (h1 : suf.length ≤ fuel1) (h2 : suf.length ≤ fuel2) :
    denseTags stringtable (pre ++ suf) fuel1 pre.length tags =
      denseTags stringtable (pre ++ suf) fuel2 pre.length tags := by
  rw [denseTags_eq_tagRun stringtable fuel1 pre suf tags h1,
    denseTags_eq_tagRun stringtable fuel2 pre suf tags h2]

theorem tagRun_suffix (stringtable : List String) :
    ∀ (n : Nat) (suf : List Int) (tg : List (String × String)) (left : List Int),
      suf.length ≤ n → tagRun stringtable suf = .ok (tg, left) → ∃ p, suf = p ++ left := by
  intro n
  induction n with
  | zero =>
    intro suf tg left h hr
    have : suf = [] := List.length_eq_zero.mp (Nat.le_zero.mp h)
    subst this
    simp [tagRun] at hr
    exact ⟨[], by simp [hr.2]⟩
  | succ n ih =>
    intro suf tg left h hr
    rcases suf with _ | ⟨k, _ | ⟨v, rest⟩⟩
    · simp [tagRun] at hr
      exact ⟨[], by simp [hr.2]⟩
    · by_cases hk : k = 0
      · simp [tagRun, hk] at hr
        exact ⟨[k], by simp [hr.2]⟩
      · simp [tagRun, hk] at hr
    · by_cases hk : k = 0
      · simp [tagRun, hk] at hr
        exact ⟨[k], by simp [hr.2]⟩
      · simp only [tagRun, hk, if_false] at hr
        cases hs1 : s stringtable k with
        | error e => simp [hs1] at hr
        | ok key =>
          cases hs2 : s stringtable v with
          | error e => simp [hs1, hs2] at hr
          | ok value =>
            cases hrest : tagRun stringtable rest with
            | error e => simp [hs1, hs2, hrest] at hr
            | ok r =>
              obtain ⟨tg', left'⟩ := r
              simp [hs1, hs2, hrest] at hr
              have hlen : rest.length ≤ n := by
                simp only [List.length_cons] at h; omega
              obtain ⟨p, hp⟩ := ih rest tg' left' hlen hrest
              exact ⟨k :: v :: p, by simp [hp, hr.2]⟩

theorem denseLoop_eq_denseRun (stringtable : List String) (dense : DenseNodes) :
    ∀ (rest : List Int) (i : Nat) (st : DenseState) (pre suf : List Int),
      dense.keys_vals = pre ++ suf → st.denseTagIndex = pre.length →
      (match denseLoop stringtable dense rest i st with
        | .error e => Except.error e
        | .ok st' => Except.ok st'.emitted) =
      (match denseRun stringtable rest (dense.lat.drop i) (dense.lon.drop i)
          (st.m_lastDenseID, st.m_lastDenseLatitude, st.m_lastDenseLongitude) suf with
        | .error e => Except.error e
        | .ok ns => Except.ok (st.emitted ++ ns)) := by
  intro rest
  induction rest with
  | nil => intro i st pre suf _ _; simp [denseLoop, denseRun]
  | cons d rest ih =>
    intro i st pre suf hkv hidx
    simp only [denseLoop, denseStep]
    cases hlat : dense.lat[i]? with
    | none =>
      have : dense.lat.drop i = [] := List.drop_eq_nil_of_le (List.getElem?_eq_none_iff.mp hlat)
      simp [this, denseRun]
    | some dlat =>
      obtain ⟨hi, hget⟩ := List.getElem?_eq_some.mp hlat
      have e1 : dense.lat.drop i = dlat :: dense.lat.drop (i + 1) := by
        rw [List.drop_eq_getElem_cons hi, hget]
      cases hlon : dense.lon[i]? with
      | none =>
        have : dense.lon.drop i = [] :=
          List.drop_eq_nil_of_le (List.getElem?_eq_none_iff.mp hlon)
        simp [this, e1, denseRun]
      | some dlon =>
        obtain ⟨hj, hget2⟩ := List.getElem?_eq_some.mp hlon
        have e2 : dense.lon.drop i = dlon :: dense.lon.drop (i + 1) := by
          rw [List.drop_eq_getElem_cons hj, hget2]
        have hb := denseTags_eq_tagRun stringtable (pre ++ suf).length pre suf []
          (by simp)
        simp only [e1, e2, denseRun, hkv, hidx, hb]
        cases hr : tagRun stringtable suf with
        | error e => simp
        | ok r =>
          obtain ⟨tg, left⟩ := r
          obtain ⟨p, hp⟩ := tagRun_suffix stringtable suf.length suf tg left (le_refl _) hr
          have hcur : (pre ++ suf).length - left.length = (pre ++ p).length := by
            simp only [hp, List.length_append]; omega
          have hkv' : dense.keys_vals = (pre ++ p) ++ left := by simp [hkv, hp]
          simp only [List.nil_append]
          rw [ih (i + 1) _ (pre ++ p) left hkv' hcur]
          cases denseRun stringtable rest (List.drop (i + 1) dense.lat)
            (List.drop (i + 1) dense.lon)
            (toInt32 (st.m_lastDenseID + d), toInt32 (st.m_lastDenseLatitude + dlat),
              toInt32 (st.m_lastDenseLongitude + dlon)) left with
          | error e => simp
          | ok ns => simp

theorem parseDenseNode_eq_denseRun (stringtable : List String) (dense : DenseNodes) :
    parseDenseNode stringtable dense =
      denseRun stringtable dense.id dense.lat dense.lon (0, 0, 0) dense.keys_vals := by
  have h := denseLoop_eq_denseRun stringtable dense dense.id 0
    { denseTagIndex := 0, m_lastDenseID := 0, m_lastDenseLatitude := 0,
      m_lastDenseLongitude := 0, emitted := [] } [] dense.keys_vals (by simp) (by simp)
  simp only [List.drop_zero, List.nil_append] at h
  unfold parseDenseNode
  rw [h]
  cases denseRun stringtable dense.id dense.lat dense.lon (0, 0, 0) dense.keys_vals <;> rfl

theorem tagRun_of_kvShape (stringtable : List String) :
    ∀ (n : Nat) (kv : List Int), kv.length ≤ n →
      kvShape stringtable.length false kv = true →
      ∃ tg left, tagRun stringtable kv = .ok (tg, left) ∧
        kvShape stringtable.length false left = true := by
  intro n
  induction n with
  | zero =>
    intro kv h _
    have : kv = [] := List.length_eq_zero.mp (Nat.le_zero.mp h)
    subst this
    exact ⟨[], [], by simp [tagRun], by simp [kvShape]⟩
  | succ n ih =>
    intro kv h hs
    rcases kv with _ | ⟨k, _ | ⟨v, rest⟩⟩
    · exact ⟨[], [], by simp [tagRun], by simp [kvShape]⟩
    · by_cases hk : k = 0
      · exact ⟨[], [], by simp [tagRun, hk], by simp [kvShape]⟩
      · simp [kvShape, hk] at hs
    · by_cases hk : k = 0
      · refine ⟨[], v :: rest, by simp [tagRun, hk], ?_⟩
        simpa [kvShape, hk] using hs
      · simp only [kvShape, hk, if_false, Bool.and_eq_true] at hs
        obtain ⟨hk1, hv1, hrest⟩ := hs
        obtain ⟨key, hkey, _⟩ := s_eq_ok_of_inTable stringtable k hk1
        obtain ⟨value, hvalue, _⟩ := s_eq_ok_of_inTable stringtable v hv1
        have hlen : rest.length ≤ n := by
          simp only [List.length_cons] at h; omega
        obtain ⟨tg, left, hr, hl⟩ := ih rest hlen hrest
        exact ⟨(cstr key, cstr value) :: tg, left, by simp [tagRun, hk, hkey, hvalue, hr], hl⟩

theorem prefixSum_cons (d : Int) (ds : List Int) (k : Nat) :
    prefixSum (d :: ds) (k + 1) = d + prefixSum ds k := by
  simp [prefixSum]

theorem denseRun_sums (stringtable : List String) :
    ∀ (ids lats lons : List Int) (acc : Int × Int × Int) (kv : List Int),
      lats.length = ids.length → lons.length = ids.length →
      kvShape stringtable.length false kv = true →
      ∃ ns, denseRun stringtable ids lats lons acc kv = .ok ns ∧ ns.length = ids.length ∧
        ∀ i, i < ids.length → ∃ node, ns[i]? = some node ∧
          node.id = toInt32 (acc.1 + prefixSum ids (i + 1)) ∧
          node.latRaw = toInt32 (acc.2.1 + prefixSum lats (i + 1)) ∧
          node.lonRaw = toInt32 (acc.2.2 + prefixSum lons (i + 1)) := by
  intro ids
  induction ids with
  | nil =>
    intro lats lons acc kv _ _ _
    exact ⟨[], by simp [denseRun], rfl, by simp⟩
  | cons d ids ih =>
    intro lats lons acc kv hlat hlon hs
    rcases lats with _ | ⟨dlat, lats⟩
    · simp at hlat
    rcases lons with _ | ⟨dlon, lons⟩
    · simp at hlon
    obtain ⟨tg, left, hr, hl⟩ := tagRun_of_kvShape stringtable kv.length kv (le_refl _) hs
    obtain ⟨ns, hns, hlenns, hall⟩ := ih lats lons
      (toInt32 (acc.1 + d), toInt32 (acc.2.1 + dlat), toInt32 (acc.2.2 + dlon)) left
      (by simpa using hlat) (by simpa using hlon) hl
    refine ⟨⟨toInt32 (acc.1 + d), toInt32 (acc.2.1 + dlat), toInt32 (acc.2.2 + dlon), tg⟩ :: ns,
      by simp only [denseRun, hr, hns], by simp [hlenns], ?_⟩
    intro i hi
    cases i with
    | zero =>
      refine ⟨⟨toInt32 (acc.1 + d), toInt32 (acc.2.1 + dlat), toInt32 (acc.2.2 + dlon), tg⟩,
        by simp, ?_, ?_, ?_⟩ <;> simp [prefixSum]
    | succ i =>
      have hi' : i < ids.length := by simpa using hi
      obtain ⟨node, hnode, h1, h2, h3⟩ := hall i hi'
      refine ⟨node, by simpa using hnode, ?_, ?_, ?_⟩
      · rw [h1, toInt32_add_left, prefixSum_cons, add_assoc]
      · rw [h2, toInt32_add_left, prefixSum_cons, add_assoc]
      · rw [h3, toInt32_add_left, prefixSum_cons, add_assoc]

/-- The tags the source attaches for one tag list: every index is looked up in
the string table and the entry is copied as a C string. -/
theorem tagRun_encodeTags (stringtable : List String) :
    ∀ (l : List (Int × Int)) (rest : List Int), tagListOk stringtable.length l →
      tagRun stringtable (encodeTags l ++ rest) =
        .ok (l.map (fun kv => (cstr (entry stringtable kv.1), cstr (entry stringtable kv.2))),
          rest) := by
  intro l
  induction l with
  | nil =>
    intro rest _
    cases rest <;> simp [encodeTags, tagRun]
  | cons kv l ih =>
    intro rest h
    obtain ⟨hk, hk1, hv1⟩ := h kv (List.mem_cons_self _ _)
    have hl : tagListOk stringtable.length l := fun x hx => h x (List.mem_cons_of_mem _ hx)
    obtain ⟨key, hkey, hkey'⟩ := s_eq_ok_of_inTable stringtable kv.1 hk1
    obtain ⟨value, hvalue, hvalue'⟩ := s_eq_ok_of_inTable stringtable kv.2 hv1
    simp [encodeTags, tagRun, hk, hkey, hvalue, ih rest hl, hkey', hvalue']

theorem denseRun_tags (stringtable : List String) :
    ∀ (lists : List (List (Int × Int))) (ids lats lons : List Int) (acc : Int × Int × Int)
      (rest : List Int),
      ids.length = lists.length → lats.length = lists.length → lons.length = lists.length →
      (∀ l ∈ lists, tagListOk stringtable.length l) →
      ∃ ns, denseRun stringtable ids lats lons acc (encodeAll lists ++ rest) = .ok ns ∧
        ns.map (fun node => node.keyVals) =
          lists.map (fun l => l.map (fun kv =>
            (cstr (entry stringtable kv.1), cstr (entry stringtable kv.2)))) := by
  intro lists
  induction lists with
  | nil =>
    intro ids lats lons acc rest hid _ _ _
    have : ids = [] := List.length_eq_zero.mp (by simpa using hid)
    subst this
    exact ⟨[], by simp [denseRun], rfl⟩
  | cons l lists ih =>
    intro ids lats lons acc rest hid hlat hlon hok
    rcases ids with _ | ⟨d, ids⟩
    · simp at hid
    rcases lats with _ | ⟨dlat, lats⟩
    · simp at hlat
    rcases lons with _ | ⟨dlon, lons⟩
    · simp at hlon
    have hr := tagRun_encodeTags stringtable l (encodeAll lists ++ rest)
      (hok l (List.mem_cons_self _ _))
    obtain ⟨ns, hns, hmap⟩ := ih ids lats lons
      (toInt32 (acc.1 + d), toInt32 (acc.2.1 + dlat), toInt32 (acc.2.2 + dlon)) rest
      (by simpa using hid) (by simpa using hlat) (by simpa using hlon)
      (fun x hx => hok x (List.mem_cons_of_mem _ hx))
    refine ⟨⟨toInt32 (acc.1 + d), toInt32 (acc.2.1 + dlat), toInt32 (acc.2.2 + dlon),
        l.map (fun kv => (cstr (entry stringtable kv.1), cstr (entry stringtable kv.2)))⟩ :: ns,
      by simp only [denseRun, encodeAll, List.append_assoc, hr, hns], ?_⟩
    simp [hmap]

/-! ## Dense nodes: the accumulated columns (C1) -/

/-- C1, the code at a failing input: a single id delta of 2^32 is accumulated in
a 32-bit `int`, so the emitted id is 0 while the sum of the stored deltas is
4294967296. -/
theorem parseDenseNode_id_not_exact_sum :
    parseDenseNode [] ⟨[4294967296], [0], [0], []⟩ = .ok [⟨0, 0, 0, []⟩] ∧
      (0 : Int) ≠ prefixSum [4294967296] 1 :=
  ⟨rfl, by decide⟩

/-- What the three accumulators do deliver: on a dense group whose id, lat and
lon arrays have the same length n and whose keys_vals array can be walked,
parseDenseNode emits n nodes, and the id, raw latitude and raw longitude of the
i-th node are the sums of the first i+1 stored deltas converted to a 32-bit int:
the exact sums whenever these fit in 32 bits. -/
theorem parseDenseNode_delta_sums (stringtable : List String) (dense : DenseNodes)
    (hlat : dense.lat.length = dense.id.length) (hlon : dense.lon.length = dense.id.length)
    (hkv : kvShape stringtable.length false dense.keys_vals = true) :
    ∃ ns, parseDenseNode stringtable dense = .ok ns ∧ ns.length = dense.id.length ∧
      ∀ i, i < dense.id.length → ∃ node, ns[i]? = some node ∧
        node.id = toInt32 (prefixSum dense.id (i + 1)) ∧
        node.latRaw = toInt32 (prefixSum dense.lat (i + 1)) ∧
        node.lonRaw = toInt32 (prefixSum dense.lon (i + 1)) ∧
        (fitsInt32 (prefixSum dense.id (i + 1)) → node.id = prefixSum dense.id (i + 1)) ∧
        (fitsInt32 (prefixSum dense.lat (i + 1)) → node.latRaw = prefixSum dense.lat (i + 1)) ∧
        (fitsInt32 (prefixSum dense.lon (i + 1)) → node.lonRaw = prefixSum dense.lon (i + 1)) := by
  obtain ⟨ns, hns, hlen, hall⟩ := denseRun_sums stringtable dense.id dense.lat dense.lon
    (0, 0, 0) dense.keys_vals hlat hlon hkv
  refine ⟨ns, by rw [parseDenseNode_eq_denseRun, hns], hlen, ?_⟩
  intro i hi
  obtain ⟨node, hnode, h1, h2, h3⟩ := hall i hi
  simp only [zero_add] at h1 h2 h3
  refine ⟨node, hnode, h1, h2, h3, ?_, ?_, ?_⟩
  · intro hf; rw [h1]; exact toInt32_of_range _ hf.1 hf.2
  · intro hf; rw [h2]; exact toInt32_of_range _ hf.1 hf.2
  · intro hf; rw [h3]; exact toInt32_of_range _ hf.1 hf.2

/-- The delta sums on a group of three nodes, the first of which has one tag. -/
theorem parseDenseNode_delta_sums_witness :
    ∃ ns, parseDenseNode ["", "highway", "bus_stop"]
        ⟨[5, -2, 10], [100, 1, -3], [7, 0, 2], [1, 2, 0, 0, 0]⟩ = .ok ns ∧
      ns.length = 3 ∧
      ∀ i, i < 3 → ∃ node, ns[i]? = some node ∧
        node.id = toInt32 (prefixSum [5, -2, 10] (i + 1)) ∧
        node.latRaw = toInt32 (prefixSum [100, 1, -3] (i + 1)) ∧
        node.lonRaw = toInt32 (prefixSum [7, 0, 2] (i + 1)) ∧
        (fitsInt32 (prefixSum [5, -2, 10] (i + 1)) → node.id = prefixSum [5, -2, 10] (i + 1)) ∧
        (fitsInt32 (prefixSum [100, 1, -3] (i + 1)) →
          node.latRaw = prefixSum [100, 1, -3] (i + 1)) ∧
        (fitsInt32 (prefixSum [7, 0, 2] (i + 1)) → node.lonRaw = prefixSum [7, 0, 2] (i + 1)) :=
  parseDenseNode_delta_sums ["", "highway", "bus_stop"]
    ⟨[5, -2, 10], [100, 1, -3], [7, 0, 2], [1, 2, 0, 0, 0]⟩ (by decide) (by decide) (by decide)

/-! ## Dense nodes: tags in lock-step with the nodes (C3) -/

/-- C3, the code at a failing input: the string table entry 1 holds a NUL
character; the dense tag walk builds the key with `s(tagValue).data()`, so the
tag attached to the node carries only the part before the NUL, not the string
table entry the index stands for. -/
theorem parseDenseNode_tag_not_table_entry :
    parseDenseNode ["", "a\x00b", "c"] ⟨[1], [0], [0], [1, 2, 0]⟩ =
        .ok [⟨1, 0, 0, [("a", "c")]⟩] ∧
      ("a", "c") ≠ (entry ["", "a\x00b", "c"] 1, entry ["", "a\x00b", "c"] 2) :=
  ⟨rfl, by decide⟩

/-- What the dense tag walk does deliver: when keys_vals is the concatenation of
one encoded tag list per node (pairs with non-zero key index, closed by a 0, all
indices within the string table), the i-th emitted node carries the tags of the
i-th list in list order and nothing else, so tags and nodes stay in lock-step;
each string is the string-table entry cut at its first NUL character, which is
the entry itself only when it holds no NUL. -/
theorem parseDenseNode_tags_lockstep (stringtable : List String) (dense : DenseNodes)
    (lists : List (List (Int × Int)))
    (hid : dense.id.length = lists.length) (hlat : dense.lat.length = lists.length)
    (hlon : dense.lon.length = lists.length) (hkv : dense.keys_vals = encodeAll lists)
    (hok : ∀ l ∈ lists, tagListOk stringtable.length l) :
    ∃ ns, parseDenseNode stringtable dense = .ok ns ∧
      ns.map (fun node => node.keyVals) =
        lists.map (fun l => l.map (fun kv =>
          (cstr (entry stringtable kv.1), cstr (entry stringtable kv.2)))) := by
  obtain ⟨ns, hns, hmap⟩ := denseRun_tags stringtable lists dense.id dense.lat dense.lon
    (0, 0, 0) [] hid hlat hlon hok
  refine ⟨ns, ?_, hmap⟩
  rw [parseDenseNode_eq_denseRun, hkv]
  simpa using hns

/-- The lock-step theorem at the array [1,2,0,3,4,0] over two nodes, one tag per
node. -/
theorem parseDenseNode_tags_lockstep_witness :
    ∃ ns, parseDenseNode ["", "highway", "bus_stop", "name", "Main"]
        ⟨[10, 1], [0, 0], [0, 0], [1, 2, 0, 3, 4, 0]⟩ = .ok ns ∧
      ns.map (fun node => node.keyVals) =
        [[(1, 2)], [(3, 4)]].map (fun l => l.map (fun kv =>
          (cstr (entry ["", "highway", "bus_stop", "name", "Main"] kv.1),
            cstr (entry ["", "highway", "bus_stop", "name", "Main"] kv.2)))) :=
  parseDenseNode_tags_lockstep ["", "highway", "bus_stop", "name", "Main"]
    ⟨[10, 1], [0, 0], [0, 0], [1, 2, 0, 3, 4, 0]⟩ [[(1, 2)], [(3, 4)]]
    (by decide) (by decide) (by decide) (by decide)
    (by simp [tagListOk, inTable])

/-- The tag loops of parseWay and parseRelation copy the string-table entry
whole: over the string table of the failing input of the dense walk, a way with
the same tag indices carries the key with its NUL character, and the tag loop of
a relation compares the whole entry, so a key `type` followed by a NUL character
and more is not the key `type`. -/
theorem parseWay_tag_is_whole_entry :
    (parseWay false ["", "a\x00b", "c"] [⟨1, [1], [2], []⟩] =
        .ok [⟨1, [], [("a\x00b", "c")]⟩] ∧
      ("a\x00b", "c") = (entry ["", "a\x00b", "c"] 1, entry ["", "a\x00b", "c"] 2)) ∧
      relationFlags ["", "type\x00x", "restriction"] [2] [1] 0 (false, false) =
        .ok (false, false) ∧
      relationFlags ["", "type", "restriction"] [2] [1] 0 (false, false) =
        .ok (true, false) :=
  ⟨⟨rfl, by decide⟩, rfl, rfl⟩

/-! ## Ways: the path accumulator (C2) -/

theorem wayPath_eq :
    ∀ (refs : List Int) (pathNode : Int) (path : List Int),
      wayPath refs pathNode path =
        path ++ (List.range refs.length).map
          (fun i => toUInt32 (pathNode + prefixSum refs (i + 1))) := by
  intro refs
  induction refs with
  | nil => intro pathNode path; simp [wayPath]
  | cons r rest ih =>
    intro pathNode path
    simp only [wayPath, ih, List.length_cons, List.range_succ_eq_map, List.map_cons,
      List.map_map, List.append_assoc, List.singleton_append]
    congr 2
    · simp [prefixSum]
    · apply List.map_congr_left
      intro i _
      simp only [Function.comp, prefixSum_cons]
      rw [toUInt32_add_left, add_assoc]

theorem drop_eq_cons_getElem? {α : Type} (xs : List α) (i : Nat) (x : α) (rest : List α)
    (h : xs.drop i = x :: rest) : xs[i]? = some x ∧ xs.drop (i + 1) = rest := by
  have hi : i < xs.length := by
    by_contra hc
    rw [List.drop_eq_nil_of_le (by omega)] at h
    cases h
  rw [List.drop_eq_getElem_cons hi] at h
  injection h with h1 h2
  exact ⟨by rw [List.getElem?_eq_getElem hi, h1], h2⟩

theorem wayTags_ok (stringtable : List String) (vals : List Int) :
    ∀ (keys valsRest : List Int) (i : Nat) (tags : List (String × String)),
      vals.drop i = valsRest → keys.length = valsRest.length →
      (∀ k ∈ keys, inTable stringtable.length k = true) →
      (∀ v ∈ valsRest, inTable stringtable.length v = true) →
      wayTags stringtable vals keys i tags =
        .ok (tags ++ (keys.zip valsRest).map
          (fun kv => (entry stringtable kv.1, entry stringtable kv.2))) := by
  intro keys
  induction keys with
  | nil => intro valsRest i tags _ _ _ _; simp [wayTags]
  | cons k keys ih =>
    intro valsRest i tags hdrop hlen hk hv
    rcases valsRest with _ | ⟨v, valsRest⟩
    · simp at hlen
    obtain ⟨hget, hdrop'⟩ := drop_eq_cons_getElem? vals i v valsRest hdrop
    obtain ⟨key, hkey, hkey'⟩ := s_eq_ok_of_inTable stringtable k (hk k (List.mem_cons_self _ _))
    obtain ⟨val, hval, hval'⟩ := s_eq_ok_of_inTable stringtable v (hv v (List.mem_cons_self _ _))
    simp only [wayTags, hkey, hget, hval]
    rw [ih valsRest (i + 1) _ hdrop' (by simpa using hlen)
      (fun x hx => hk x (List.mem_cons_of_mem _ hx))
      (fun x hx => hv x (List.mem_cons_of_mem _ hx))]
    simp [hkey', hval']

theorem parseOneWay_ok (ndebug : Bool) (stringtable : List String) (w : Way)
    (hw : wayOk stringtable.length w) :
    parseOneWay ndebug stringtable w =
      .ok { id := w.id,
            path := (List.range w.refs.length).map (fun i => toUInt32 (prefixSum w.refs (i + 1))),
            keyVals := (w.keys.zip w.vals).map
              (fun kv => (entry stringtable kv.1, entry stringtable kv.2)) } := by
  obtain ⟨hlen, hk, hv⟩ := hw
  have ht := wayTags_ok stringtable w.vals w.keys w.vals 0 [] (by simp) hlen hk hv
  simp [parseOneWay, hlen, ht, wayPath_eq]

/-- C2, the claim at a refuting input: the single ref delta 4294967301 is
accumulated in a 32-bit `unsigned`, so the path entry is 5 while the sum of the
stored deltas, as a 64-bit node id, is 4294967301. -/
theorem parseWay_ref_not_64bit_sum :
    parseWay false [] [⟨7, [], [], [4294967301]⟩] = .ok [⟨7, [5], []⟩] ∧
      (5 : Int) ≠ prefixSum [4294967301] 1 :=
  ⟨rfl, by decide⟩

/-- What the path accumulator does deliver: for ways whose tag arrays can be
read, parseWay hands on one way per record, in record order, with the stored id
unchanged and a path that has one entry per stored ref delta, in array order,
the i-th entry being the sum of the first i+1 deltas reduced modulo 2^32 (the
accumulator is a 32-bit unsigned): deltas [5,-2,10] give [5,3,13]. -/
theorem parseWay_path (ndebug : Bool) (stringtable : List String) (ways : List Way)
    (hok : ∀ w ∈ ways, wayOk stringtable.length w) :
    ∃ out, parseWay ndebug stringtable ways = .ok out ∧
      out.map (fun w => (w.id, w.path)) =
        ways.map (fun w => (w.id,
          (List.range w.refs.length).map (fun i => toUInt32 (prefixSum w.refs (i + 1))))) := by
  induction ways with
  | nil => exact ⟨[], rfl, rfl⟩
  | cons w ways ih =>
    obtain ⟨out, hout, hmap⟩ := ih (fun x hx => hok x (List.mem_cons_of_mem _ hx))
    obtain ⟨o, ho, hid, hpath⟩ : ∃ o, parseOneWay ndebug stringtable w = .ok o ∧ o.id = w.id ∧
        o.path = (List.range w.refs.length).map (fun i => toUInt32 (prefixSum w.refs (i + 1))) :=
      ⟨_, parseOneWay_ok ndebug stringtable w (hok w (List.mem_cons_self _ _)), rfl, rfl⟩
    refine ⟨o :: out, by simp only [parseWay, ho, hout], ?_⟩
    simp [hmap, hid, hpath]

/-- The path of a way with ref deltas [5,-2,10]. -/
theorem parseWay_path_witness :
    ∃ out, parseWay false ["", "highway", "residential"]
        [⟨42, [1], [2], [5, -2, 10]⟩] = .ok out ∧
      out.map (fun w => (w.id, w.path)) =
        [(⟨42, [1], [2], [5, -2, 10]⟩ : Way)].map (fun w => (w.id,
          (List.range w.refs.length).map (fun i => toUInt32 (prefixSum w.refs (i + 1))))) :=
  parseWay_path false ["", "highway", "residential"] [⟨42, [1], [2], [5, -2, 10]⟩]
    (by simp [wayOk, inTable])

/-- The same way evaluated: deltas [5,-2,10] give the path [5,3,13]. -/
theorem parseWay_example :
    parseWay false ["", "highway", "residential"] [⟨42, [1], [2], [5, -2, 10]⟩] =
      .ok [⟨42, [5, 3, 13], [("highway", "residential")]⟩] := rfl

/-! ## Relations: flags, member walk -/

theorem relationFlags_ok (stringtable : List String) (vals : List Int) :
    ∀ (keys valsRest : List Int) (k : Nat) (flags : Bool × Bool),
      vals.drop k = valsRest → keys.length = valsRest.length →
      (∀ x ∈ keys, inTable stringtable.length x = true) →
      (∀ v ∈ valsRest, inTable stringtable.length v = true) →
      relationFlags stringtable vals keys k flags =
        .ok (flags.1 || hasTypeRestriction (tagsOf stringtable keys valsRest),
             flags.2 || hasOnlyRestriction (tagsOf stringtable keys valsRest)) := by
  intro keys
  induction keys with
  | nil =>
    intro valsRest k flags _ _ _ _
    simp [relationFlags, tagsOf, hasTypeRestriction, hasOnlyRestriction]
  | cons ki keys ih =>
    intro valsRest k flags hdrop hlen hk hv
    rcases valsRest with _ | ⟨v, valsRest⟩
    · simp at hlen
    obtain ⟨hget, hdrop'⟩ := drop_eq_cons_getElem? vals k v valsRest hdrop
    obtain ⟨key, hkey, hkey'⟩ :=
      s_eq_ok_of_inTable stringtable ki (hk ki (List.mem_cons_self _ _))
    obtain ⟨val, hval, hval'⟩ := s_eq_ok_of_inTable stringtable v (hv v (List.mem_cons_self _ _))
    simp only [relationFlags, hkey, hget, hval]
    rw [ih valsRest (k + 1) _ hdrop' (by simpa using hlen)
      (fun x hx => hk x (List.mem_cons_of_mem _ hx))
      (fun x hx => hv x (List.mem_cons_of_mem _ hx))]
    have e1 : entry stringtable ki = key := hkey'
    have e2 : entry stringtable v = val := hval'
    simp only [tagsOf, hasTypeRestriction, hasOnlyRestriction, List.zip_cons_cons,
      List.map_cons, List.any_cons, e1, e2]
    cases flags.1 <;> cases flags.2 <;>
      cases (key == "type" && val == "restriction") <;>
      cases (key == "restriction" && startsWith "only_" val) <;> simp

theorem memberLoop_append (ndebug : Bool) (stringtable : List String) (r : Relation) :
    ∀ (xs ys : List Int) (i : Nat) (st : Int × _RawRestrictionContainer),
      memberLoop ndebug stringtable r (xs ++ ys) i st =
        match memberLoop ndebug stringtable r xs i st with
        | .error e => .error e
        | .ok st' => memberLoop ndebug stringtable r ys (i + xs.length) st' := by
  intro xs
  induction xs with
  | nil => intro ys i st; simp [memberLoop]
  | cons x xs ih =>
    intro ys i st
    simp only [List.cons_append, memberLoop]
    cases memberStep ndebug stringtable r i x st with
    | error e => simp
    | ok st' =>
      have h := ih ys (i + 1) st'
      have e : i + 1 + xs.length = i + (xs.length + 1) := by omega
      rw [e] at h
      simpa using h

/-- The result of the switch when no assertion is violated. -/
theorem assignMember_ok (ndebug : Bool) (role : String) (type : MemberType) (lastRef : Int)
    (c : _RawRestrictionContainer) (hto : c.restriction.toNode = UINT_MAX) :
    ∃ c', assignMember ndebug role type lastRef c = .ok c' ∧
      c'.restriction.toNode = UINT_MAX ∧ c'.isOnlyType = c.isOnlyType := by
  cases type with
  | node =>
    by_cases h1 : (role == "from" || role == "to") = true
    · exact ⟨c, by simp [assignMember, h1], hto, rfl⟩
    · refine ⟨_, by simp only [assignMember, h1]; rfl, ?_, ?_⟩
      · by_cases h2 : (UINT_MAX != c.viaNode) = true <;> simp [h2, hto]
      · by_cases h2 : (UINT_MAX != c.viaNode) = true <;> simp [h2]
  | way =>
    by_cases hf : (role == "from") = true <;> by_cases ht : (role == "to") = true <;>
      by_cases hv : (role == "via") = true <;>
      simp [assignMember, hf, ht, hv, hto]
  | relation => exact ⟨c, by simp [assignMember], hto, rfl⟩

theorem prefixSum_succ (ds : List Int) (j : Nat) (d : Int) (h : ds[j]? = some d) :
    prefixSum ds (j + 1) = prefixSum ds j + d := by
  obtain ⟨hj, hget⟩ := List.getElem?_eq_some.mp h
  unfold prefixSum
  rw [List.sum_take_succ ds j hj, hget]

theorem memberStep_ok (ndebug : Bool) (stringtable : List String) (r : Relation)
    (j : Nat) (sid d : Int) (type : MemberType) (a : Int) (c : _RawRestrictionContainer)
    (hsid : inTable stringtable.length sid = true) (hd : r.memids[j]? = some d)
    (ht : r.types[j]? = some type) :
    memberStep ndebug stringtable r j sid (a, c) =
      if isRestrictionRole (roleOf stringtable sid) then
        match assignMember ndebug (roleOf stringtable sid) type (toInt64 (a + d)) c with
        | .error e => .error e
        | .ok c' => .ok (toInt64 (a + d), c')
      else .ok (toInt64 (a + d), c) := by
  obtain ⟨str, hs, hs'⟩ := s_eq_ok_of_inTable stringtable sid hsid
  have e : roleOf stringtable sid = cstr str := by simp [roleOf, hs']
  simp only [memberStep, hs, hd, ht, e, isRestrictionRole]
  by_cases h : (cstr str == "from" || cstr str == "to" || cstr str == "via") = true
  · simp [h]
  · simp [h]

theorem memberLoop_take_succ (ndebug : Bool) (stringtable : List String) (r : Relation)
    (j : Nat) (sid : Int) (hsid : r.roles_sid[j]? = some sid)
    (st : Int × _RawRestrictionContainer) :
    memberLoop ndebug stringtable r (r.roles_sid.take (j + 1)) 0 st =
      match memberLoop ndebug stringtable r (r.roles_sid.take j) 0 st with
      | .error e => .error e
      | .ok st' => memberStep ndebug stringtable r j sid st' := by
  obtain ⟨hj, _⟩ := List.getElem?_eq_some.mp hsid
  have hlen : (r.roles_sid.take j).length = j := by
    rw [List.length_take]; omega
  rw [List.take_succ, hsid, memberLoop_append]
  cases memberLoop ndebug stringtable r (r.roles_sid.take j) 0 st with
  | error e => rfl
  | ok st' =>
    simp only [Option.toList, memberLoop, hlen, zero_add]
    cases memberStep ndebug stringtable r j sid st' <;> rfl

/-- The member walk over all role ids is the walk over the first `j` of them
followed by the walk over the rest, resumed at index `j`. -/
theorem memberLoop_split (ndebug : Bool) (stringtable : List String) (r : Relation)
    (j : Nat) (hj : j ≤ r.roles_sid.length) (st : Int × _RawRestrictionContainer) :
    memberLoop ndebug stringtable r r.roles_sid 0 st =
      match memberLoop ndebug stringtable r (r.roles_sid.take j) 0 st with
      | .error e => .error e
      | .ok st' => memberLoop ndebug stringtable r (r.roles_sid.drop j) j st' := by
  have hlen : (r.roles_sid.take j).length = j := by
    rw [List.length_take]; omega
  have h := memberLoop_append ndebug stringtable r (r.roles_sid.take j) (r.roles_sid.drop j) 0 st
  rw [List.take_append_drop, hlen, zero_add] at h
  exact h

/-- State of the member walk after the first `j` members of a readable relation:
the accumulator holds the sum of the first `j` stored id deltas (as a 64-bit
value), whatever the roles and types of these members. -/
theorem memberLoop_take (ndebug : Bool) (stringtable : List String) (r : Relation) (b : Bool)
    (hm : r.memids.length = r.roles_sid.length) (ht : r.types.length = r.roles_sid.length)
    (hs : ∀ x ∈ r.roles_sid, inTable stringtable.length x = true) :
    ∀ j, j ≤ r.roles_sid.length →
      ∃ c, memberLoop ndebug stringtable r (r.roles_sid.take j) 0
          (0, _RawRestrictionContainer.init b) = .ok (toInt64 (prefixSum r.memids j), c) ∧
        c.restriction.toNode = UINT_MAX ∧ c.isOnlyType = b := by
  intro j
  induction j with
  | zero =>
    intro _
    exact ⟨_RawRestrictionContainer.init b, by simp [memberLoop, prefixSum, toInt64], rfl, rfl⟩
  | succ j ih =>
    intro hj
    have hj' : j < r.roles_sid.length := by omega
    obtain ⟨c, hc, hto, hb⟩ := ih (by omega)
    have hsid : r.roles_sid[j]? = some r.roles_sid[j] := List.getElem?_eq_getElem hj'
    have hjm : j < r.memids.length := by omega
    have hjt : j < r.types.length := by omega
    have hd : r.memids[j]? = some r.memids[j] := List.getElem?_eq_getElem hjm
    have hty : r.types[j]? = some r.types[j] := List.getElem?_eq_getElem hjt
    have hin := hs _ (List.getElem_mem hj')
    rw [memberLoop_take_succ ndebug stringtable r j _ hsid, hc]
    simp only []
    rw [memberStep_ok ndebug stringtable r j _ _ _ _ c hin hd hty, toInt64_add_left,
      ← prefixSum_succ r.memids j _ hd]
    by_cases hr : isRestrictionRole (roleOf stringtable r.roles_sid[j]) = true
    · obtain ⟨c', hc', hto', hb'⟩ := assignMember_ok ndebug (roleOf stringtable r.roles_sid[j])
        r.types[j] (toInt64 (prefixSum r.memids (j + 1))) c hto
      exact ⟨c', by simp [hr, hc'], hto', by rw [hb', hb]⟩
    · exact ⟨c, by simp [hr], hto, hb⟩

theorem parseOneRelation_ok (ndebug : Bool) (stringtable : List String) (r : Relation)
    (hr : relationOk stringtable.length r) :
    ∃ c, memberLoop ndebug stringtable r r.roles_sid 0
        (0, _RawRestrictionContainer.init (hasOnlyRestriction (tagsOf stringtable r.keys r.vals))) =
          .ok (toInt64 (prefixSum r.memids r.roles_sid.length), c) ∧
      c.isOnlyType = hasOnlyRestriction (tagsOf stringtable r.keys r.vals) ∧
      parseOneRelation ndebug stringtable r =
        .ok (if hasTypeRestriction (tagsOf stringtable r.keys r.vals) then some c else none) := by
  obtain ⟨hlen, hk, hv, hm, ht, hs⟩ := hr
  have hf := relationFlags_ok stringtable r.vals r.keys r.vals 0 (false, false) (by simp)
    hlen hk hv
  obtain ⟨c, hc, _, hb⟩ := memberLoop_take ndebug stringtable r
    (hasOnlyRestriction (tagsOf stringtable r.keys r.vals)) hm ht hs r.roles_sid.length (le_refl _)
  rw [List.take_length] at hc
  refine ⟨c, hc, hb, ?_⟩
  simp only [parseOneRelation, hf, Bool.false_or]
  by_cases hfl : hasTypeRestriction (tagsOf stringtable r.keys r.vals) = true
  · simp [hfl, hc]
  · simp [hfl]

/-- One member of a readable relation in context: the container `c` reached
after the first `j` members, and the state after member `j`, which is handled
with `lastRef` equal to the sum of the stored id deltas at indices `0..j`. -/
theorem memberLoop_step (ndebug : Bool) (stringtable : List String) (r : Relation) (b : Bool)
    (hm : r.memids.length = r.roles_sid.length) (ht : r.types.length = r.roles_sid.length)
    (hs : ∀ x ∈ r.roles_sid, inTable stringtable.length x = true)
    (j : Nat) (sid : Int) (type : MemberType)
    (hsid : r.roles_sid[j]? = some sid) (hty : r.types[j]? = some type) :
    ∃ c, memberLoop ndebug stringtable r (r.roles_sid.take j) 0
        (0, _RawRestrictionContainer.init b) = .ok (toInt64 (prefixSum r.memids j), c) ∧
      c.restriction.toNode = UINT_MAX ∧
      memberLoop ndebug stringtable r (r.roles_sid.take (j + 1)) 0
          (0, _RawRestrictionContainer.init b) =
        if isRestrictionRole (roleOf stringtable sid) then
          match assignMember ndebug (roleOf stringtable sid) type
              (toInt64 (prefixSum r.memids (j + 1))) c with
          | .error e => .error e
          | .ok c' => .ok (toInt64 (prefixSum r.memids (j + 1)), c')
        else .ok (toInt64 (prefixSum r.memids (j + 1)), c) := by
  obtain ⟨hj, hget⟩ := List.getElem?_eq_some.mp hsid
  have hjm : j < r.memids.length := by omega
  have hd : r.memids[j]? = some r.memids[j] := List.getElem?_eq_getElem hjm
  obtain ⟨c, hc, hto, _⟩ := memberLoop_take ndebug stringtable r b hm ht hs j (by omega)
  refine ⟨c, hc, hto, ?_⟩
  have hin : inTable stringtable.length sid = true := by
    rw [← hget]; exact hs _ (List.getElem_mem hj)
  rw [memberLoop_take_succ ndebug stringtable r j sid hsid, hc]
  simp only []
  rw [memberStep_ok ndebug stringtable r j sid _ type _ c hin hd hty, toInt64_add_left,
    ← prefixSum_succ r.memids j _ hd]

/-! ## Relations: dispatch of restrictions (C4) -/

/-- C4: on a group of readable relations, parseRelation invokes the restriction
callback once for each relation whose tag list contains type=restriction, in
relation order, with the candidate built from that relation whatever its
members resolved, and invokes it for no other relation. -/
theorem parseRelation_dispatch (ndebug : Bool) (stringtable : List String)
    (relations : List Relation) (hok : ∀ r ∈ relations, relationOk stringtable.length r) :
    ∃ cs, parseRelation ndebug stringtable relations = .ok cs ∧
      List.Forall₂ (fun r c => parseOneRelation ndebug stringtable r = .ok (some c))
        (relations.filter (fun r => hasTypeRestriction (tagsOf stringtable r.keys r.vals))) cs ∧
      ∀ r ∈ relations, hasTypeRestriction (tagsOf stringtable r.keys r.vals) = false →
        parseOneRelation ndebug stringtable r = .ok none := by
  induction relations with
  | nil => exact ⟨[], rfl, by simp, by simp⟩
  | cons r rest ih =>
    obtain ⟨cs, hcs, hall, hnone⟩ := ih (fun x hx => hok x (List.mem_cons_of_mem _ hx))
    obtain ⟨c, _, _, hc⟩ := parseOneRelation_ok ndebug stringtable r
      (hok r (List.mem_cons_self _ _))
    by_cases hfl : hasTypeRestriction (tagsOf stringtable r.keys r.vals) = true
    · simp only [hfl, if_true] at hc
      refine ⟨c :: cs, by simp [parseRelation, hc, hcs], ?_, ?_⟩
      · simp only [List.filter_cons, hfl, if_true]
        exact List.Forall₂.cons hc hall
      · intro x hx hx'
        rcases List.mem_cons.mp hx with rfl | hmem
        · rw [hfl] at hx'; cases hx'
        · exact hnone x hmem hx'
    · simp only [hfl, if_false] at hc
      refine ⟨cs, by simp [parseRelation, hc, hcs], ?_, ?_⟩
      · simp only [List.filter_cons, hfl, if_false]
        exact hall
      · intro x hx hx'
        rcases List.mem_cons.mp hx with rfl | hmem
        · exact hc
        · exact hnone x hmem hx'

/-- Witness for C4: three relations without members, type=restriction alone (dispatched
with nothing resolved), restriction=no_left_turn with type=multipolygon (not
dispatched), and restriction=no_left_turn with type=restriction (dispatched). -/
theorem parseRelation_dispatch_witness :
    ∃ cs, parseRelation false ["", "type", "restriction", "no_left_turn", "multipolygon"]
        [⟨[1], [2], [], [], []⟩, ⟨[2, 1], [3, 4], [], [], []⟩, ⟨[2, 1], [3, 2], [], [], []⟩] =
          .ok cs ∧
      List.Forall₂ (fun r c => parseOneRelation false
          ["", "type", "restriction", "no_left_turn", "multipolygon"] r = .ok (some c))
        (([⟨[1], [2], [], [], []⟩, ⟨[2, 1], [3, 4], [], [], []⟩,
            ⟨[2, 1], [3, 2], [], [], []⟩] : List Relation).filter
          (fun r => hasTypeRestriction
            (tagsOf ["", "type", "restriction", "no_left_turn", "multipolygon"] r.keys r.vals)))
        cs ∧
      ∀ r ∈ ([⟨[1], [2], [], [], []⟩, ⟨[2, 1], [3, 4], [], [], []⟩,
            ⟨[2, 1], [3, 2], [], [], []⟩] : List Relation),
        hasTypeRestriction
          (tagsOf ["", "type", "restriction", "no_left_turn", "multipolygon"] r.keys r.vals) =
            false →
        parseOneRelation false ["", "type", "restriction", "no_left_turn", "multipolygon"] r =
          .ok none :=
  parseRelation_dispatch false ["", "type", "restriction", "no_left_turn", "multipolygon"]
    [⟨[1], [2], [], [], []⟩, ⟨[2, 1], [3, 4], [], [], []⟩, ⟨[2, 1], [3, 2], [], [], []⟩]
    (by simp [relationOk, inTable])

/-! ## Relations: the only-flag (C8) -/

/-- C8: a readable relation flagged type=restriction is dispatched with
isOnlyType true exactly when its tag list holds a tag with key `restriction`
whose value has the five characters `only_` as a prefix; the condition is
membership in the tag list, so tag order and other tags play no part. -/
theorem parseOneRelation_isOnlyType (ndebug : Bool) (stringtable : List String) (r : Relation)
    (hr : relationOk stringtable.length r)
    (hflag : hasTypeRestriction (tagsOf stringtable r.keys r.vals) = true) :
    ∃ c, parseOneRelation ndebug stringtable r = .ok (some c) ∧
      (c.isOnlyType = true ↔
        ∃ t ∈ tagsOf stringtable r.keys r.vals,
          t.1 = "restriction" ∧ "only_".data <+: t.2.data) := by
  obtain ⟨c, _, hb, hc⟩ := parseOneRelation_ok ndebug stringtable r hr
  refine ⟨c, by simpa [hflag] using hc, ?_⟩
  rw [hb]
  simp [hasOnlyRestriction, startsWith, List.isPrefixOf_iff_prefix]

/-- Witness for C8: a relation whose tags come in the order note, restriction,
type. -/
theorem parseOneRelation_isOnlyType_witness :
    ∃ c, parseOneRelation false ["", "type", "restriction", "only_right_turn", "note"]
        ⟨[4, 2, 1], [4, 3, 2], [], [], []⟩ = .ok (some c) ∧
      (c.isOnlyType = true ↔
        ∃ t ∈ tagsOf ["", "type", "restriction", "only_right_turn", "note"] [4, 2, 1] [4, 3, 2],
          t.1 = "restriction" ∧ "only_".data <+: t.2.data) :=
  parseOneRelation_isOnlyType false ["", "type", "restriction", "only_right_turn", "note"]
    ⟨[4, 2, 1], [4, 3, 2], [], [], []⟩ (by simp [relationOk, inTable]) (by decide)

/-! ## Relations: the switch on the member type -/

theorem memberLoop_congr (ndebug : Bool) (stringtable : List String) (r1 r2 : Relation) :
    ∀ (rest : List Int) (i1 i2 : Nat) (st : Int × _RawRestrictionContainer),
      (∀ k, k < rest.length → r1.memids[i1 + k]? = r2.memids[i2 + k]? ∧
        r1.types[i1 + k]? = r2.types[i2 + k]?) →
      memberLoop ndebug stringtable r1 rest i1 st =
        memberLoop ndebug stringtable r2 rest i2 st := by
  intro rest
  induction rest with
  | nil => intro i1 i2 st _; simp [memberLoop]
  | cons sid rest ih =>
    intro i1 i2 st h
    have h0 := h 0 (by simp)
    simp only [add_zero] at h0
    have hstep : memberStep ndebug stringtable r1 i1 sid st =
        memberStep ndebug stringtable r2 i2 sid st := by
      simp only [memberStep, h0.1, h0.2]
    simp only [memberLoop, hstep]
    cases memberStep ndebug stringtable r2 i2 sid st with
    | error e => rfl
    | ok st' =>
      simp only []
      apply ih
      intro k hk
      have := h (k + 1) (by simp; omega)
      have e1 : i1 + (k + 1) = i1 + 1 + k := by omega
      have e2 : i2 + (k + 1) = i2 + 1 + k := by omega
      rw [e1, e2] at this
      exact this

theorem getElem?_insert_lt {α : Type} (xs : List α) (p k : Nat) (x : α)
    (hp : p ≤ xs.length) (hk : k < p) : (xs.take p ++ x :: xs.drop p)[k]? = xs[k]? := by
  rw [List.getElem?_append_left (by rw [List.length_take]; omega), List.getElem?_take_of_lt hk]

theorem getElem?_insert_eq {α : Type} (xs : List α) (p : Nat) (x : α)
    (hp : p ≤ xs.length) : (xs.take p ++ x :: xs.drop p)[p]? = some x := by
  rw [List.getElem?_append_right (by rw [List.length_take]; omega)]
  simp [List.length_take, Nat.min_eq_left hp]

theorem getElem?_insert_gt {α : Type} (xs : List α) (p k : Nat) (x : α)
    (hp : p ≤ xs.length) : (xs.take p ++ x :: xs.drop p)[p + 1 + k]? = xs[p + k]? := by
  rw [List.getElem?_append_right (by rw [List.length_take]; omega)]
  have e : p + 1 + k - (xs.take p).length = k + 1 := by
    rw [List.length_take, Nat.min_eq_left hp]; omega
  rw [e]
  simp [List.getElem?_drop]

/-- An extra member with an ignored role and id delta 0 leaves the result of
the relation body unchanged. -/
theorem parseOneRelation_insertMember (ndebug : Bool) (stringtable : List String)
    (r : Relation) (hr : relationOk stringtable.length r) (p : Nat) (sid : Int)
    (type : MemberType) (hp : p ≤ r.roles_sid.length)
    (hsid : inTable stringtable.length sid = true)
    (hrole : isRestrictionRole (roleOf stringtable sid) = false) :
    parseOneRelation ndebug stringtable (insertMember r p sid 0 type) =
      parseOneRelation ndebug stringtable r := by
  obtain ⟨_, _, _, hm, ht, hs⟩ := hr
  have hpm : p ≤ r.memids.length := by omega
  have hpt : p ≤ r.types.length := by omega
  have key : ∀ b, memberLoop ndebug stringtable (insertMember r p sid 0 type)
      (insertMember r p sid 0 type).roles_sid 0 (0, _RawRestrictionContainer.init b) =
        memberLoop ndebug stringtable r r.roles_sid 0 (0, _RawRestrictionContainer.init b) := by
    intro b
    obtain ⟨c, hc, _, _⟩ := memberLoop_take ndebug stringtable r b hm ht hs p hp
    have hlen : (r.roles_sid.take p).length = p := by
      rw [List.length_take]; omega
    have h1 : memberLoop ndebug stringtable (insertMember r p sid 0 type) (r.roles_sid.take p) 0
        (0, _RawRestrictionContainer.init b) = .ok (toInt64 (prefixSum r.memids p), c) := by
      rw [← hc]
      apply memberLoop_congr
      intro k hk
      rw [hlen] at hk
      simp only [insertMember, zero_add]
      exact ⟨getElem?_insert_lt _ _ _ _ hpm hk, getElem?_insert_lt _ _ _ _ hpt hk⟩
    have h2 : memberStep ndebug stringtable (insertMember r p sid 0 type) p sid
        (toInt64 (prefixSum r.memids p), c) = .ok (toInt64 (prefixSum r.memids p), c) := by
      rw [memberStep_ok ndebug stringtable _ p sid 0 type _ c hsid
        (by simp only [insertMember]; exact getElem?_insert_eq _ _ _ hpm)
        (by simp only [insertMember]; exact getElem?_insert_eq _ _ _ hpt)]
      simp only [hrole, Bool.false_eq_true, if_false, add_zero, toInt64_idem]
    have h3 : memberLoop ndebug stringtable (insertMember r p sid 0 type) (r.roles_sid.drop p)
        (p + 1) (toInt64 (prefixSum r.memids p), c) =
        memberLoop ndebug stringtable r (r.roles_sid.drop p) p
          (toInt64 (prefixSum r.memids p), c) := by
      apply memberLoop_congr
      intro k _
      simp only [insertMember]
      exact ⟨getElem?_insert_gt _ _ _ _ hpm, getElem?_insert_gt _ _ _ _ hpt⟩
    have hsplit : r.roles_sid = r.roles_sid.take p ++ r.roles_sid.drop p :=
      (List.take_append_drop p r.roles_sid).symm
    have lhs : (insertMember r p sid 0 type).roles_sid =
        r.roles_sid.take p ++ sid :: r.roles_sid.drop p := rfl
    rw [lhs, memberLoop_append, h1]
    simp only [memberLoop, hlen, zero_add, h2, h3]
    conv_rhs => rw [hsplit, memberLoop_append, hc]
    simp only [hlen, zero_add]
  have hkeys : (insertMember r p sid 0 type).keys = r.keys := rfl
  have hvals : (insertMember r p sid 0 type).vals = r.vals := rfl
  simp only [parseOneRelation, hkeys, hvals, key]

/-! ## Relations: the member id accumulator (C5) -/

/-- C5: in a readable relation, a member at index j whose role is from, to or
via is handled with lastRef equal to the sum of the stored id deltas at indices
0..j (as a 64-bit value, the sum itself when it fits), the deltas of all earlier
members counted whatever their role or type; and an extra member with an ignored
role and delta 0, at any position, does not change what is dispatched. -/
theorem member_id_is_prefix_sum (ndebug : Bool) (stringtable : List String) (r : Relation)
    (b : Bool) (hr : relationOk stringtable.length r) :
    (∀ j sid type, r.roles_sid[j]? = some sid → r.types[j]? = some type →
      isRestrictionRole (roleOf stringtable sid) = true →
      ∃ c c', memberLoop ndebug stringtable r (r.roles_sid.take j) 0
          (0, _RawRestrictionContainer.init b) = .ok (toInt64 (prefixSum r.memids j), c) ∧
        assignMember ndebug (roleOf stringtable sid) type
          (toInt64 (prefixSum r.memids (j + 1))) c = .ok c' ∧
        memberLoop ndebug stringtable r (r.roles_sid.take (j + 1)) 0
          (0, _RawRestrictionContainer.init b) =
            .ok (toInt64 (prefixSum r.memids (j + 1)), c') ∧
        (fitsInt64 (prefixSum r.memids (j + 1)) →
          toInt64 (prefixSum r.memids (j + 1)) = prefixSum r.memids (j + 1))) ∧
    (∀ p sid type, p ≤ r.roles_sid.length → inTable stringtable.length sid = true →
      isRestrictionRole (roleOf stringtable sid) = false →
      parseOneRelation ndebug stringtable (insertMember r p sid 0 type) =
        parseOneRelation ndebug stringtable r) := by
  constructor
  · intro j sid type hsid hty hrole
    obtain ⟨c, hc, hto, hstep⟩ := memberLoop_step ndebug stringtable r b hr.2.2.2.1
      hr.2.2.2.2.1 hr.2.2.2.2.2 j sid type hsid hty
    obtain ⟨c', hc', _, _⟩ := assignMember_ok ndebug (roleOf stringtable sid) type
      (toInt64 (prefixSum r.memids (j + 1))) c hto
    refine ⟨c, c', hc, hc', ?_, fun hf => toInt64_of_range _ hf.1 hf.2⟩
    rw [hstep]
    simp [hrole, hc']
  · intro p sid type hp hsid hrole
    exact parseOneRelation_insertMember ndebug stringtable r hr p sid type hp hsid hrole

/-- Witness for C5: a relation with members from (way), platform (node), to
(way). -/
theorem member_id_is_prefix_sum_witness :
    (∀ j sid type,
      (⟨[1], [2], [3, 6, 4], [100, 5, 20], [.way, .node, .way]⟩ : Relation).roles_sid[j]? =
        some sid →
      (⟨[1], [2], [3, 6, 4], [100, 5, 20], [.way, .node, .way]⟩ : Relation).types[j]? =
        some type →
      isRestrictionRole
        (roleOf ["", "type", "restriction", "from", "to", "via", "platform"] sid) = true →
      ∃ c c', memberLoop false ["", "type", "restriction", "from", "to", "via", "platform"]
          ⟨[1], [2], [3, 6, 4], [100, 5, 20], [.way, .node, .way]⟩
          ((⟨[1], [2], [3, 6, 4], [100, 5, 20], [.way, .node, .way]⟩ : Relation).roles_sid.take j)
          0 (0, _RawRestrictionContainer.init false) =
            .ok (toInt64 (prefixSum [100, 5, 20] j), c) ∧
        assignMember false
          (roleOf ["", "type", "restriction", "from", "to", "via", "platform"] sid) type
          (toInt64 (prefixSum [100, 5, 20] (j + 1))) c = .ok c' ∧
        memberLoop false ["", "type", "restriction", "from", "to", "via", "platform"]
          ⟨[1], [2], [3, 6, 4], [100, 5, 20], [.way, .node, .way]⟩
          ((⟨[1], [2], [3, 6, 4], [100, 5, 20], [.way, .node, .way]⟩ :
            Relation).roles_sid.take (j + 1))
          0 (0, _RawRestrictionContainer.init false) =
            .ok (toInt64 (prefixSum [100, 5, 20] (j + 1)), c') ∧
        (fitsInt64 (prefixSum [100, 5, 20] (j + 1)) →
          toInt64 (prefixSum [100, 5, 20] (j + 1)) = prefixSum [100, 5, 20] (j + 1))) ∧
    (∀ p sid type, p ≤ 3 →
      inTable 7 sid = true →
      isRestrictionRole
        (roleOf ["", "type", "restriction", "from", "to", "via", "platform"] sid) = false →
      parseOneRelation false ["", "type", "restriction", "from", "to", "via", "platform"]
          (insertMember ⟨[1], [2], [3, 6, 4], [100, 5, 20], [.way, .node, .way]⟩ p sid 0 type) =
        parseOneRelation false ["", "type", "restriction", "from", "to", "via", "platform"]
          ⟨[1], [2], [3, 6, 4], [100, 5, 20], [.way, .node, .way]⟩) :=
  member_id_is_prefix_sum false ["", "type", "restriction", "from", "to", "via", "platform"]
    ⟨[1], [2], [3, 6, 4], [100, 5, 20], [.way, .node, .way]⟩ false
    (by simp [relationOk, inTable])

/-- The relation of the witness above, evaluated: the member with the ignored
role `platform` advances the accumulator, and the way after it gets the sum of
all three deltas. -/
theorem parseOneRelation_ignored_member_example :
    parseOneRelation false ["", "type", "restriction", "from", "to", "via", "platform"]
        ⟨[1], [2], [3, 6, 4], [100, 5, 20], [.way, .node, .way]⟩ =
      .ok (some ⟨⟨4294967295, 4294967295⟩, 100, 125, 4294967295, false⟩) := rfl

/-! ## Relations: members of type way (C6) -/

/-- A relation with members from (way, id 100), via (way, id 150), to (way,
id 200): the via way lands in the container-level `viaNode`, and
`restriction.viaNode` stays unset. -/
theorem parseOneRelation_via_way_example :
    parseOneRelation false ["", "type", "restriction", "from", "via", "to"]
        ⟨[1], [2], [3, 4, 5], [100, 50, 50], [.way, .way, .way]⟩ =
      .ok (some ⟨⟨4294967295, 4294967295⟩, 100, 200, 150, false⟩) := rfl

/-! ## Relations: members of type node and relation (C7) -/

/-- The relation of the classification example with member ids 100 (from, way),
7 (via, node) and 200 (to, way), stored as the deltas 100, -93, 193. -/
theorem parseOneRelation_only_right_turn_example :
    parseOneRelation false ["", "type", "restriction", "only_right_turn", "from", "via", "to"]
        ⟨[1, 2], [2, 3], [4, 5, 6], [100, -93, 193], [.way, .node, .way]⟩ =
      .ok (some ⟨⟨7, 4294967295⟩, 100, 200, 4294967295, true⟩) := rfl

/-! ## loadGroup and the dispatch in ParseData (C9) -/

theorem loadGroup_ok (ndebug : Bool) (threadData : _ThreadData) (group : PrimitiveGroup)
    (hg : threadData.PBFprimitiveBlock.primitivegroup[threadData.currentGroupID]? = some group)
    (hpop : populated group) (hdense : ndebug = true ∨ denseNonEmpty group) :
    loadGroup ndebug threadData =
      .ok { threadData with entityTypeIndicator := lastPopulatedKind group } := by
  unfold loadGroup
  rw [hg]
  cases hd : group.dense with
  | some dense =>
    have hne : ndebug = true ∨ dense.id ≠ [] := hdense.imp id (fun h => h dense hd)
    have h1 : (!ndebug && !(dense.id.length != 0)) = false := by
      rcases hne with h | h
      · simp [h]
      · have : dense.id.length ≠ 0 := fun hc => h (List.length_eq_zero.mp hc)
        simp [this]
    simp [h1, lastPopulatedKind, hd, TypeDenseNode]
  | none =>
    have hpop' : group.nodes ≠ [] ∨ group.ways ≠ [] ∨ group.relations ≠ [] := by
      rcases hpop with h | h | h | h
      · exact Or.inl h
      · exact Or.inr (Or.inl h)
      · exact Or.inr (Or.inr h)
      · simp [hd] at h
    by_cases hr : group.relations = []
    · by_cases hw : group.ways = []
      · have hn : group.nodes ≠ [] := by
          rcases hpop' with h | h | h
          · exact h
          · exact absurd hw h
          · exact absurd hr h
        simp [lastPopulatedKind, hd, hr, hw, hn, TypeNode]
      · simp [lastPopulatedKind, hd, hr, hw, TypeWay]
    · simp [lastPopulatedKind, hd, hr, TypeRelation]

/-- C9, the claim at a refuting input: a group with one way and a dense section
that is present but holds no id has a populated sub-collection, yet in a build
with assertions loadGroup stops at `assert(group.dense().id_size() != 0)`
instead of classifying the group as DenseNode. -/
theorem loadGroup_empty_dense_asserts :
    populated ⟨[], [⟨1, [], [], []⟩], [], some ⟨[], [], [], []⟩⟩ ∧
      loadGroup false { emptyThreadData with
        PBFprimitiveBlock := { emptyThreadData.PBFprimitiveBlock with
          primitivegroup := [⟨[], [⟨1, [], [], []⟩], [], some ⟨[], [], [], []⟩⟩] } } =
        .error .assertion :=
  ⟨by simp [populated], rfl⟩

/-- C9 (as amended): for a group with at least one populated sub-collection
whose dense section, when present, holds at least one id (or in a build with
NDEBUG), loadGroup sets the indicator to the last populated kind in the order
Nodes, Ways, Relations, DenseNodes, and the loop body of ParseData then runs the
decoder of that kind on the group and no other decoder. -/
theorem loadGroup_classifies_and_dispatches {σ : Type} (D : Decoders σ) (ndebug : Bool)
    (threadData : _ThreadData) (w : σ) (i : Nat) (group : PrimitiveGroup)
    (hg : threadData.PBFprimitiveBlock.primitivegroup[i]? = some group)
    (hpop : populated group) (hdense : ndebug = true ∨ denseNonEmpty group) :
    loadGroup ndebug { threadData with currentGroupID := i } =
        .ok { threadData with currentGroupID := i,
                              entityTypeIndicator := lastPopulatedKind group } ∧
      groupBody D ndebug i (threadData, w) =
        match decoderOf D (lastPopulatedKind group)
            { threadData with currentGroupID := i,
                              entityTypeIndicator := lastPopulatedKind group } w with
        | .error e => .error e
        | .ok w' => .ok ({ threadData with currentGroupID := i,
                                           entityTypeIndicator := lastPopulatedKind group }, w') := by
  have hl := loadGroup_ok ndebug { threadData with currentGroupID := i } group hg hpop hdense
  refine ⟨hl, ?_⟩
  simp only [groupBody, hl, runIf, decoderOf]
  have hk : lastPopulatedKind group = TypeDenseNode ∨ lastPopulatedKind group = TypeRelation ∨
      lastPopulatedKind group = TypeWay ∨ lastPopulatedKind group = TypeNode := by
    unfold lastPopulatedKind
    split
    · exact Or.inl rfl
    · split
      · exact Or.inr (Or.inl rfl)
      · split
        · exact Or.inr (Or.inr (Or.inl rfl))
        · exact Or.inr (Or.inr (Or.inr rfl))
  rcases hk with h | h | h | h <;> rw [h] <;>
    simp [TypeNode, TypeWay, TypeRelation, TypeDenseNode]

/-- Witness for C9: a group with one way and one relation and no dense section. -/
theorem loadGroup_classifies_and_dispatches_witness :
    loadGroup false { { emptyThreadData with
        PBFprimitiveBlock := { emptyThreadData.PBFprimitiveBlock with
          primitivegroup := [⟨[], [⟨1, [], [], []⟩], [⟨[], [], [], [], []⟩], none⟩] } } with
        currentGroupID := 0 } =
        .ok { { emptyThreadData with
          PBFprimitiveBlock := { emptyThreadData.PBFprimitiveBlock with
            primitivegroup := [⟨[], [⟨1, [], [], []⟩], [⟨[], [], [], [], []⟩], none⟩] } } with
          currentGroupID := 0,
          entityTypeIndicator :=
            lastPopulatedKind ⟨[], [⟨1, [], [], []⟩], [⟨[], [], [], [], []⟩], none⟩ } ∧
      groupBody tracingDecoders false 0 ({ emptyThreadData with
          PBFprimitiveBlock := { emptyThreadData.PBFprimitiveBlock with
            primitivegroup := [⟨[], [⟨1, [], [], []⟩], [⟨[], [], [], [], []⟩], none⟩] } }, []) =
        match decoderOf tracingDecoders
            (lastPopulatedKind ⟨[], [⟨1, [], [], []⟩], [⟨[], [], [], [], []⟩], none⟩)
            { { emptyThreadData with
              PBFprimitiveBlock := { emptyThreadData.PBFprimitiveBlock with
                primitivegroup := [⟨[], [⟨1, [], [], []⟩], [⟨[], [], [], [], []⟩], none⟩] } } with
              currentGroupID := 0,
              entityTypeIndicator :=
                lastPopulatedKind ⟨[], [⟨1, [], [], []⟩], [⟨[], [], [], [], []⟩], none⟩ } [] with
        | .error e => .error e
        | .ok w' => .ok ({ { emptyThreadData with
            PBFprimitiveBlock := { emptyThreadData.PBFprimitiveBlock with
              primitivegroup := [⟨[], [⟨1, [], [], []⟩], [⟨[], [], [], [], []⟩], none⟩] } } with
            currentGroupID := 0,
            entityTypeIndicator :=
              lastPopulatedKind ⟨[], [⟨1, [], [], []⟩], [⟨[], [], [], [], []⟩], none⟩ }, w') :=
  loadGroup_classifies_and_dispatches tracingDecoders false
    { emptyThreadData with
      PBFprimitiveBlock := { emptyThreadData.PBFprimitiveBlock with
        primitivegroup := [⟨[], [⟨1, [], [], []⟩], [⟨[], [], [], [], []⟩], none⟩] } }
    [] 0 ⟨[], [⟨1, [], [], []⟩], [⟨[], [], [], [], []⟩], none⟩ rfl
    (by simp [populated]) (Or.inr (by simp [denseNonEmpty]))

/-- The group of the witness, run with the tracing decoders: ways and relations
are both populated, and only parseRelation runs. -/
theorem groupBody_example :
    (groupBody tracingDecoders false 0 ({ emptyThreadData with
        PBFprimitiveBlock := { emptyThreadData.PBFprimitiveBlock with
          primitivegroup := [⟨[], [⟨1, [], [], []⟩], [⟨[], [], [], [], []⟩], none⟩] } },
        [])).map (fun st => st.2) = .ok ["parseRelation"] := rfl

/-! ## readPBFBlobHeader: size check before any header read (C10) -/

theorem FStream.read_four (stream : FStream) (heof : stream.eofbit = false)
    (hfail : stream.failbit = false) (hlen : stream.pos + 4 ≤ stream.bytes.length) :
    stream.read 4 =
      ((stream.bytes.drop stream.pos).take 4, { stream with pos := stream.pos + 4 }) ∧
      ((stream.bytes.drop stream.pos).take 4).length = 4 := by
  constructor
  · simp [FStream.read, heof, hfail, hlen]
  · rw [List.length_take, List.length_drop]
    omega

/-- C10: on a good stream that still holds a 4-byte length prefix whose
normalised value is negative or greater than MAX_BLOB_HEADER_SIZE,
readPBFBlobHeader returns false, leaves the stream exactly 4 bytes further with
its state bits untouched, and leaves the thread data as it was: no header
buffer is read and nothing is decoded. -/
theorem readPBFBlobHeader_rejects_size (X : Extern) (stream : FStream)
    (threadData : _ThreadData) (heof : stream.eofbit = false) (hfail : stream.failbit = false)
    (hlen : stream.pos + 4 ≤ stream.bytes.length)
    (hsize : swapEndian ((stream.bytes.drop stream.pos).take 4) < 0 ∨
      swapEndian ((stream.bytes.drop stream.pos).take 4) > X.MAX_BLOB_HEADER_SIZE) :
    readPBFBlobHeader X stream threadData =
      (false, { stream with pos := stream.pos + 4 }, threadData) := by
  obtain ⟨hread, hfour⟩ := FStream.read_four stream heof hfail hlen
  unfold readPBFBlobHeader
  simp only [hread, hfour, Nat.sub_self, List.replicate_zero, List.append_nil, heof]
  have : (decide (swapEndian ((stream.bytes.drop stream.pos).take 4) > X.MAX_BLOB_HEADER_SIZE) ||
      decide (swapEndian ((stream.bytes.drop stream.pos).take 4) < 0)) = true := by
    rcases hsize with h | h
    · simp [h]
    · simp [h]
  simp [this]

/-- Witness for C10: a stream whose prefix is 0xFFFFFFFF, that is -1. -/
theorem readPBFBlobHeader_rejects_size_witness :
    readPBFBlobHeader
        { MAX_BLOB_HEADER_SIZE := 65536, ParseBlobHeader := fun _ => (true, ⟨"OSMData", 1⟩),
          alloc := fun n => List.replicate n 0 }
        { bytes := [255, 255, 255, 255, 10, 20, 30], pos := 0, eofbit := false,
          failbit := false }
        emptyThreadData =
      (false, { ({ bytes := [255, 255, 255, 255, 10, 20, 30], pos := 0, eofbit := false,
                   failbit := false } : FStream) with pos := 0 + 4 }, emptyThreadData) :=
  readPBFBlobHeader_rejects_size
    { MAX_BLOB_HEADER_SIZE := 65536, ParseBlobHeader := fun _ => (true, ⟨"OSMData", 1⟩),
      alloc := fun n => List.replicate n 0 }
    { bytes := [255, 255, 255, 255, 10, 20, 30], pos := 0, eofbit := false, failbit := false }
    emptyThreadData rfl rfl (by decide) (Or.inl (by decide))

/-- Two runs of the header reader on concrete streams: a prefix of 0x00010001
(65537, above the limit 65536) is rejected after 4 bytes, and a prefix of 2 is
followed by a 2-byte header read. -/
theorem readPBFBlobHeader_examples :
    (readPBFBlobHeader
        { MAX_BLOB_HEADER_SIZE := 65536, ParseBlobHeader := fun _ => (true, ⟨"OSMData", 1⟩),
          alloc := fun n => List.replicate n 0 }
        { bytes := [0, 1, 0, 1, 10, 20, 30], pos := 0, eofbit := false, failbit := false }
        emptyThreadData).2.1.pos = 4 ∧
    (readPBFBlobHeader
        { MAX_BLOB_HEADER_SIZE := 65536, ParseBlobHeader := fun _ => (true, ⟨"OSMData", 1⟩),
          alloc := fun n => List.replicate n 0 }
        { bytes := [0, 0, 0, 2, 10, 20, 30], pos := 0, eofbit := false, failbit := false }
        emptyThreadData).2.1.pos = 6 :=
  ⟨by decide, by decide⟩


/-! ## Dense nodes: no read out of range (C20) -/

theorem kvShape_of_kvPaired (n : Nat) :
    ∀ (kv : List Int) (atValue : Bool), (∀ e ∈ kv, inTable n e = true) →
      kvPaired atValue kv = true → kvShape n atValue kv = true := by
  intro kv
  induction kv with
  | nil => intro atValue _ h; cases atValue <;> simp_all [kvPaired, kvShape]
  | cons e rest ih =>
    intro atValue hin h
    have he := hin e (List.mem_cons_self _ _)
    have hrest : ∀ x ∈ rest, inTable n x = true := fun x hx => hin x (List.mem_cons_of_mem _ hx)
    cases atValue with
    | true =>
      simp only [kvPaired] at h
      simp [kvShape, he, ih false hrest h]
    | false =>
      by_cases h0 : e = 0
      · simp only [kvPaired, h0, if_true] at h
        simp [kvShape, h0, ih false hrest h]
      · simp only [kvPaired, h0, if_false] at h
        simp [kvShape, h0, he, ih true hrest h]

theorem denseRun_ok (stringtable : List String) :
    ∀ (ids lats lons : List Int) (acc : Int × Int × Int) (kv : List Int),
      ids.length ≤ lats.length → ids.length ≤ lons.length →
      kvShape stringtable.length false kv = true →
      ∃ ns, denseRun stringtable ids lats lons acc kv = .ok ns ∧ ns.length = ids.length := by
  intro ids
  induction ids with
  | nil =>
    intro lats lons acc kv _ _ _
    exact ⟨[], by simp [denseRun], rfl⟩
  | cons d ids ih =>
    intro lats lons acc kv hlat hlon hs
    rcases lats with _ | ⟨dlat, lats⟩
    · simp at hlat
    rcases lons with _ | ⟨dlon, lons⟩
    · simp at hlon
    obtain ⟨tg, left, hr, hl⟩ := tagRun_of_kvShape stringtable kv.length kv (le_refl _) hs
    obtain ⟨ns, hns, hlenns⟩ := ih lats lons
      (toInt32 (acc.1 + d), toInt32 (acc.2.1 + dlat), toInt32 (acc.2.2 + dlon)) left
      (by simpa using hlat) (by simpa using hlon) hl
    exact ⟨⟨toInt32 (acc.1 + d), toInt32 (acc.2.1 + dlat), toInt32 (acc.2.2 + dlon), tg⟩ :: ns,
      by simp only [denseRun, hr, hns], by simp [hlenns]⟩

theorem denseTags_lone_key (stringtable : List String) (pre : List Int) (k : Int)
    (hk : k ≠ 0) (fuel : Nat) (tags : List (String × String)) :
    denseTags stringtable (pre ++ [k]) (fuel + 1) pre.length tags = .error .outOfRange := by
  have e1 : (pre ++ [k])[pre.length]? = some k := by
    rw [List.getElem?_append_right (le_refl _)]; simp
  have e2 : (pre ++ [k])[pre.length + 1]? = none := by simp
  simp [denseTags, hk, e1, e2]

/-- C20, the claim at a refuting input: the entry -1 is below the length of the
string table and is followed by a value entry, the lat and lon arrays are as
long as the id array, and the walk indexes the string table at -1. -/
theorem parseDenseNode_negative_index :
    ((∀ e ∈ ([-1, 1, 0] : List Int), e < ((["", "a"] : List String).length : Int)) ∧
        kvPaired false [-1, 1, 0] = true) ∧
      parseDenseNode ["", "a"] ⟨[1], [0], [0], [-1, 1, 0]⟩ = .error .outOfRange :=
  ⟨⟨by decide, by decide⟩, rfl⟩

/-- C20 (as amended): parseDenseNode indexes nothing out of range on a dense
group whose lat and lon arrays are at least as long as its id array, whose
keys_vals entries all lie within the string table (not negative and below its
length), and in which every non-zero entry at a key position is followed by a
value entry: it returns one node per id. When the cursor stands on a lone
non-zero key that ends keys_vals, the walk reads keys_vals at the index equal to
its length, one position past the end. -/
theorem parseDenseNode_in_range (stringtable : List String) (dense : DenseNodes)
    (hlat : dense.id.length ≤ dense.lat.length) (hlon : dense.id.length ≤ dense.lon.length)
    (hin : ∀ e ∈ dense.keys_vals, inTable stringtable.length e = true)
    (hp : kvPaired false dense.keys_vals = true) :
    (∃ ns, parseDenseNode stringtable dense = .ok ns ∧ ns.length = dense.id.length) ∧
      ∀ (pre : List Int) (k : Int) (fuel : Nat) (tags : List (String × String)), k ≠ 0 →
        (pre ++ [k])[pre.length + 1]? = none ∧ pre.length + 1 = (pre ++ [k]).length ∧
        denseTags stringtable (pre ++ [k]) (fuel + 1) pre.length tags = .error .outOfRange := by
  constructor
  · obtain ⟨ns, hns, hlen⟩ := denseRun_ok stringtable dense.id dense.lat dense.lon (0, 0, 0)
      dense.keys_vals hlat hlon (kvShape_of_kvPaired _ _ _ hin hp)
    exact ⟨ns, by rw [parseDenseNode_eq_denseRun, hns], hlen⟩
  · intro pre k fuel tags hk
    exact ⟨by simp, by simp, denseTags_lone_key stringtable pre k hk fuel tags⟩

/-- Witness for C20: two nodes, the first with one tag, longer lat and lon
arrays. -/
theorem parseDenseNode_in_range_witness :
    (∃ ns, parseDenseNode ["", "highway", "bus_stop"]
        ⟨[5, 1], [0, 0, 0], [0, 0, 0], [1, 2, 0, 0]⟩ = .ok ns ∧ ns.length = 2) ∧
      ∀ (pre : List Int) (k : Int) (fuel : Nat) (tags : List (String × String)), k ≠ 0 →
        (pre ++ [k])[pre.length + 1]? = none ∧ pre.length + 1 = (pre ++ [k]).length ∧
        denseTags ["", "highway", "bus_stop"] (pre ++ [k]) (fuel + 1) pre.length tags =
          .error .outOfRange :=
  parseDenseNode_in_range ["", "highway", "bus_stop"]
    ⟨[5, 1], [0, 0, 0], [0, 0, 0], [1, 2, 0, 0]⟩ (by decide) (by decide)
    (by simp [inTable]) (by decide)

/-- A keys_vals array that ends in a lone non-zero key, reached by the walk of
the only node: the result is the read past the end. -/
theorem parseDenseNode_lone_key_example :
    parseDenseNode ["", "highway", "bus_stop"] ⟨[5], [0], [0], [1, 2, 1]⟩ =
      .error .outOfRange := rfl

/-! ## Dense nodes: a 0 in a value position (C19) -/

/-- C19, the code at a failing input: the pair (1, 0) is consumed as one tag,
but string-table entry 0 holds a NUL character and the value, built with
`s(keyValue).data()`, is only the part before the NUL, not string-table
entry 0. -/
theorem parseDenseNode_zero_value_not_entry :
    parseDenseNode ["x\x00y", "k"] ⟨[1], [0], [0], [1, 0, 0]⟩ =
        .ok [⟨1, 0, 0, [("k", "x")]⟩] ∧
      "x" ≠ entry ["x\x00y", "k"] 0 :=
  ⟨rfl, by decide⟩

/-- What the dense tag walk does with a 0 in a value position: a 0 ends a
node's tag list only in a key position. When the tag list of a node holds a pair
(k, 0) with k non-zero, the pair is consumed as one tag, the tags after the pair
still go to the same node, and the nodes before and after it receive their own
tags; the value of the tag is string-table entry 0 cut at its first NUL
character, which is entry 0 itself only when it holds no NUL. -/
theorem parseDenseNode_zero_value (stringtable : List String) (dense : DenseNodes)
    (before after : List (List (Int × Int))) (l1 l2 : List (Int × Int)) (k : Int)
    (hid : dense.id.length = (before ++ [l1 ++ (k, 0) :: l2] ++ after).length)
    (hlat : dense.lat.length = (before ++ [l1 ++ (k, 0) :: l2] ++ after).length)
    (hlon : dense.lon.length = (before ++ [l1 ++ (k, 0) :: l2] ++ after).length)
    (hkv : dense.keys_vals = encodeAll (before ++ [l1 ++ (k, 0) :: l2] ++ after))
    (hok : ∀ l ∈ before ++ [l1 ++ (k, 0) :: l2] ++ after, tagListOk stringtable.length l) :
    ∃ ns, parseDenseNode stringtable dense = .ok ns ∧
      ns.map (fun node => node.keyVals) =
        before.map (fun l => l.map (fun kv =>
            (cstr (entry stringtable kv.1), cstr (entry stringtable kv.2)))) ++
          [l1.map (fun kv => (cstr (entry stringtable kv.1), cstr (entry stringtable kv.2))) ++
            (cstr (entry stringtable k), cstr (entry stringtable 0)) ::
            l2.map (fun kv => (cstr (entry stringtable kv.1), cstr (entry stringtable kv.2)))] ++
          after.map (fun l => l.map (fun kv =>
            (cstr (entry stringtable kv.1), cstr (entry stringtable kv.2)))) := by
  obtain ⟨ns, hns, hmap⟩ := denseRun_tags stringtable (before ++ [l1 ++ (k, 0) :: l2] ++ after)
    dense.id dense.lat dense.lon (0, 0, 0) [] hid hlat hlon hok
  refine ⟨ns, ?_, ?_⟩
  · rw [parseDenseNode_eq_denseRun, hkv]
    simpa using hns
  · rw [hmap]
    simp

/-- The zero-value theorem at three nodes: the middle one has the tags (1,2),
(3,0), (1,4); its neighbours have one tag and no tag. -/
theorem parseDenseNode_zero_value_witness :
    ∃ ns, parseDenseNode ["", "highway", "bus_stop", "name", "yes"]
        ⟨[1, 1, 1], [0, 0, 0], [0, 0, 0], [3, 4, 0, 1, 2, 3, 0, 1, 4, 0, 0]⟩ = .ok ns ∧
      ns.map (fun node => node.keyVals) =
        [[((3 : Int), (4 : Int))]].map (fun l => l.map (fun kv =>
            (cstr (entry ["", "highway", "bus_stop", "name", "yes"] kv.1),
              cstr (entry ["", "highway", "bus_stop", "name", "yes"] kv.2)))) ++
          [[((1 : Int), (2 : Int))].map (fun kv =>
              (cstr (entry ["", "highway", "bus_stop", "name", "yes"] kv.1),
                cstr (entry ["", "highway", "bus_stop", "name", "yes"] kv.2))) ++
            (cstr (entry ["", "highway", "bus_stop", "name", "yes"] 3),
              cstr (entry ["", "highway", "bus_stop", "name", "yes"] 0)) ::
            [((1 : Int), (4 : Int))].map (fun kv =>
              (cstr (entry ["", "highway", "bus_stop", "name", "yes"] kv.1),
                cstr (entry ["", "highway", "bus_stop", "name", "yes"] kv.2)))] ++
          [([] : List (Int × Int))].map (fun l => l.map (fun kv =>
            (cstr (entry ["", "highway", "bus_stop", "name", "yes"] kv.1),
              cstr (entry ["", "highway", "bus_stop", "name", "yes"] kv.2)))) :=
  parseDenseNode_zero_value ["", "highway", "bus_stop", "name", "yes"]
    ⟨[1, 1, 1], [0, 0, 0], [0, 0, 0], [3, 4, 0, 1, 2, 3, 0, 1, 4, 0, 0]⟩
    [[(3, 4)]] [[]] [(1, 2)] [(1, 4)] 3 (by decide) (by decide) (by decide) (by decide)
    (by
      simp only [tagListOk, inTable]
      decide)

/-- The group of the witness evaluated: the pair (3, 0) gives the tag
(name, empty string) inside the tag list of the second node. -/
theorem parseDenseNode_zero_value_example :
    parseDenseNode ["", "highway", "bus_stop", "name", "yes"]
        ⟨[1, 1, 1], [0, 0, 0], [0, 0, 0], [3, 4, 0, 1, 2, 3, 0, 1, 4, 0, 0]⟩ =
      .ok [⟨1, 0, 0, [("name", "yes")]⟩,
           ⟨2, 0, 0, [("highway", "bus_stop"), ("name", ""), ("highway", "yes")]⟩,
           ⟨3, 0, 0, []⟩] := rfl

/-! ## Dense nodes: the hook and the callback (C17) -/

theorem denseLoopCalls_eq_denseRun (hook : ImportNode → Option ImportNode)
    (nodeCallback : ImportNode → Bool) (stringtable : List String) (dense : DenseNodes) :
    ∀ (rest : List Int) (i : Nat) (st : DenseState) (calls : List Call) (pre suf : List Int),
      dense.keys_vals = pre ++ suf → st.denseTagIndex = pre.length →
      denseLoopCalls hook nodeCallback stringtable dense rest i st calls =
      (match denseRun stringtable rest (dense.lat.drop i) (dense.lon.drop i)
          (st.m_lastDenseID, st.m_lastDenseLatitude, st.m_lastDenseLongitude) suf with
        | .error e => Except.error e
        | .ok ns => Except.ok (calls ++ tryBlocks hook nodeCallback ns)) := by
  intro rest
  induction rest with
  | nil => intro i st calls pre suf _ _; simp [denseLoopCalls, denseRun, tryBlocks]
  | cons d rest ih =>
    intro i st calls pre suf hkv hidx
    simp only [denseLoopCalls, denseStep]
    cases hlat : dense.lat[i]? with
    | none =>
      have : dense.lat.drop i = [] := List.drop_eq_nil_of_le (List.getElem?_eq_none_iff.mp hlat)
      simp [this, denseRun]
    | some dlat =>
      obtain ⟨hi, hget⟩ := List.getElem?_eq_some.mp hlat
      have e1 : dense.lat.drop i = dlat :: dense.lat.drop (i + 1) := by
        rw [List.drop_eq_getElem_cons hi, hget]
      cases hlon : dense.lon[i]? with
      | none =>
        have : dense.lon.drop i = [] :=
          List.drop_eq_nil_of_le (List.getElem?_eq_none_iff.mp hlon)
        simp [this, e1, denseRun]
      | some dlon =>
        obtain ⟨hj, hget2⟩ := List.getElem?_eq_some.mp hlon
        have e2 : dense.lon.drop i = dlon :: dense.lon.drop (i + 1) := by
          rw [List.drop_eq_getElem_cons hj, hget2]
        have hb := denseTags_eq_tagRun stringtable (pre ++ suf).length pre suf []
          (by simp)
        simp only [e1, e2, denseRun, hkv, hidx, hb]
        cases hr : tagRun stringtable suf with
        | error e => simp
        | ok r =>
          obtain ⟨tg, left⟩ := r
          obtain ⟨p, hp⟩ := tagRun_suffix stringtable suf.length suf tg left (le_refl _) hr
          have hcur : (pre ++ suf).length - left.length = (pre ++ p).length := by
            simp only [hp, List.length_append]; omega
          have hkv' : dense.keys_vals = (pre ++ p) ++ left := by simp [hkv, hp]
          simp only [List.nil_append]
          rw [ih (i + 1) _ _ (pre ++ p) left hkv' hcur]
          cases denseRun stringtable rest (List.drop (i + 1) dense.lat)
            (List.drop (i + 1) dense.lon)
            (toInt32 (st.m_lastDenseID + d), toInt32 (st.m_lastDenseLatitude + dlat),
              toInt32 (st.m_lastDenseLongitude + dlon)) left with
          | error e => simp
          | ok ns => simp [tryBlocks]

theorem hookNodes_tryBlocks (hook : ImportNode → Option ImportNode)
    (nodeCallback : ImportNode → Bool) :
    ∀ ns : List ImportNode, hookNodes (tryBlocks hook nodeCallback ns) = ns := by
  intro ns
  induction ns with
  | nil => rfl
  | cons n ns ih =>
    cases h : hook n <;> simp [tryBlocks, tryBlock, h, hookNodes, ih]

theorem callbackNodes_tryBlocks (hook : ImportNode → Option ImportNode)
    (nodeCallback : ImportNode → Bool) :
    ∀ ns : List ImportNode,
      callbackNodes (tryBlocks hook nodeCallback ns) = ns.filterMap hook := by
  intro ns
  induction ns with
  | nil => rfl
  | cons n ns ih =>
    cases h : hook n <;> simp [tryBlocks, tryBlock, h, callbackNodes, ih, List.filterMap_cons]

/-- C17, the claim at a refuting input: on a group of one node, a hook that
fails leaves the node callback without the node, while a hook that returns lets
the callback receive it. -/
theorem parseDenseNodeCalls_hook_failure_skips_callback :
    parseDenseNodeCalls (fun _ => none) (fun _ => true) [] ⟨[1], [0], [0], []⟩ =
        .ok [.node_function ⟨1, 0, 0, []⟩] ∧
      parseDenseNodeCalls (fun n => some n) (fun _ => true) [] ⟨[1], [0], [0], []⟩ =
        .ok [.node_function ⟨1, 0, 0, []⟩, .nodeCallback ⟨1, 0, 0, []⟩ true] :=
  ⟨rfl, rfl⟩

/-- C17 (as amended): on a dense group of n ids (with n lats and lons and a
keys_vals array that can be walked), parseDenseNode decodes the same n points
whatever the hook and the callback do; it passes each of them to the hook, once
and in index order, and runs per point the hook call first and then the
callback call; the callback receives, in order, exactly the points whose hook
call returned (as the hook left them), so a hook failure at index i withholds
point i from the callback and nothing else, and the value the callback returns
changes nothing. -/
theorem parseDenseNodeCalls_order (stringtable : List String) (dense : DenseNodes)
    (hlat : dense.lat.length = dense.id.length) (hlon : dense.lon.length = dense.id.length)
    (hkv : kvShape stringtable.length false dense.keys_vals = true) :
    ∃ ns, parseDenseNode stringtable dense = .ok ns ∧ ns.length = dense.id.length ∧
      ∀ (hook : ImportNode → Option ImportNode) (nodeCallback : ImportNode → Bool),
        parseDenseNodeCalls hook nodeCallback stringtable dense =
            .ok (tryBlocks hook nodeCallback ns) ∧
          hookNodes (tryBlocks hook nodeCallback ns) = ns ∧
          callbackNodes (tryBlocks hook nodeCallback ns) = ns.filterMap hook := by
  obtain ⟨ns, hns, hlen⟩ := denseRun_ok stringtable dense.id dense.lat dense.lon (0, 0, 0)
    dense.keys_vals (by omega) (by omega) hkv
  refine ⟨ns, by rw [parseDenseNode_eq_denseRun, hns], hlen, ?_⟩
  intro hook nodeCallback
  refine ⟨?_, hookNodes_tryBlocks hook nodeCallback ns,
    callbackNodes_tryBlocks hook nodeCallback ns⟩
  have h := denseLoopCalls_eq_denseRun hook nodeCallback stringtable dense dense.id 0
    { denseTagIndex := 0, m_lastDenseID := 0, m_lastDenseLatitude := 0,
      m_lastDenseLongitude := 0, emitted := [] } [] [] dense.keys_vals (by simp) (by simp)
  simp only [List.drop_zero, List.nil_append, hns] at h
  exact h

/-- Witness for C17: a group of three nodes, the first with one tag. -/
theorem parseDenseNodeCalls_order_witness :
    ∃ ns, parseDenseNode ["", "highway", "bus_stop"]
        ⟨[5, -2, 10], [100, 1, -3], [7, 0, 2], [1, 2, 0, 0, 0]⟩ = .ok ns ∧ ns.length = 3 ∧
      ∀ (hook : ImportNode → Option ImportNode) (nodeCallback : ImportNode → Bool),
        parseDenseNodeCalls hook nodeCallback ["", "highway", "bus_stop"]
            ⟨[5, -2, 10], [100, 1, -3], [7, 0, 2], [1, 2, 0, 0, 0]⟩ =
            .ok (tryBlocks hook nodeCallback ns) ∧
          hookNodes (tryBlocks hook nodeCallback ns) = ns ∧
          callbackNodes (tryBlocks hook nodeCallback ns) = ns.filterMap hook :=
  parseDenseNodeCalls_order ["", "highway", "bus_stop"]
    ⟨[5, -2, 10], [100, 1, -3], [7, 0, 2], [1, 2, 0, 0, 0]⟩ (by decide) (by decide) (by decide)

/-- Three nodes with a hook that fails on the node of id 3 only and a callback
that always returns false: all three go to the hook, the other two go to the
callback. -/
theorem parseDenseNodeCalls_example :
    parseDenseNodeCalls (fun n => if n.id = 3 then none else some n) (fun _ => false) []
        ⟨[5, -2, 10], [0, 0, 0], [0, 0, 0], []⟩ =
      .ok [.node_function ⟨5, 0, 0, []⟩, .nodeCallback ⟨5, 0, 0, []⟩ false,
           .node_function ⟨3, 0, 0, []⟩,
           .node_function ⟨13, 0, 0, []⟩, .nodeCallback ⟨13, 0, 0, []⟩ false] := rfl

/-! ## loadGroup on a group without any entity (C18) -/

/-- C18, the claim at a refuting input: in a build with NDEBUG the assertions of
loadGroup are compiled out; a group with no nodes, ways, relations or dense
section is left with the indicator 0, and the loop body of ParseData runs no
decoder on it and goes on. -/
theorem loadGroup_empty_group_ndebug :
    loadGroup true { emptyThreadData with
        PBFprimitiveBlock := { emptyThreadData.PBFprimitiveBlock with
          primitivegroup := [⟨[], [], [], none⟩] } } =
        .ok { emptyThreadData with
          entityTypeIndicator := 0,
          PBFprimitiveBlock := { emptyThreadData.PBFprimitiveBlock with
            primitivegroup := [⟨[], [], [], none⟩] } } ∧
      (groupBody tracingDecoders true 0 ({ emptyThreadData with
        PBFprimitiveBlock := { emptyThreadData.PBFprimitiveBlock with
          primitivegroup := [⟨[], [], [], none⟩] } }, [])).map (fun st => st.2) = .ok [] :=
  ⟨rfl, rfl⟩

/-- C18 (as amended): in a build without NDEBUG, for every group in which
nodes, ways and relations are empty and no dense section is present, the final
assertion of loadGroup fails, and so does the loop body of ParseData for that
group, whatever the decoders are; likewise for a group whose dense section is
present and holds no id. -/
theorem loadGroup_empty_group_asserts {σ : Type} (D : Decoders σ) (threadData : _ThreadData)
    (w : σ) (i : Nat) (group : PrimitiveGroup)
    (hg : threadData.PBFprimitiveBlock.primitivegroup[i]? = some group)
    (hempty : (group.nodes = [] ∧ group.ways = [] ∧ group.relations = [] ∧ group.dense = none) ∨
      ∃ dense, group.dense = some dense ∧ dense.id = []) :
    loadGroup false { threadData with currentGroupID := i } = .error .assertion ∧
      groupBody D false i (threadData, w) = .error .assertion := by
  have hl : loadGroup false { threadData with currentGroupID := i } = .error .assertion := by
    unfold loadGroup
    simp only [hg]
    rcases hempty with ⟨hn, hw, hr, hd⟩ | ⟨dense, hd, hid⟩
    · simp [hn, hw, hr, hd]
    · simp [hd, hid]
  exact ⟨hl, by simp only [groupBody, hl]⟩

/-- Witness for C18: a block whose only group is empty. -/
theorem loadGroup_empty_group_asserts_witness :
    loadGroup false { { emptyThreadData with
        PBFprimitiveBlock := { emptyThreadData.PBFprimitiveBlock with
          primitivegroup := [⟨[], [], [], none⟩] } } with currentGroupID := 0 } =
        .error .assertion ∧
      groupBody tracingDecoders false 0 ({ emptyThreadData with
        PBFprimitiveBlock := { emptyThreadData.PBFprimitiveBlock with
          primitivegroup := [⟨[], [], [], none⟩] } }, []) = .error .assertion :=
  loadGroup_empty_group_asserts tracingDecoders
    { emptyThreadData with
      PBFprimitiveBlock := { emptyThreadData.PBFprimitiveBlock with
        primitivegroup := [⟨[], [], [], none⟩] } }
    [] 0 ⟨[], [], [], none⟩ rfl (Or.inl ⟨rfl, rfl, rfl, rfl⟩)

/-! ## Frame headers: end of stream and malformed headers (C11) -/

theorem readPBFBlobHeader_ends (X : Extern) (stream : FStream) (threadData : _ThreadData)
    (h : endsBeforePrefix stream) :
    (readPBFBlobHeader X stream threadData).1 = false ∧
      (readPBFBlobHeader X stream threadData).2.1.eofbit = true := by
  obtain ⟨⟨heof, hfail⟩, hlen⟩ := h
  have hn : ¬ stream.pos + 4 ≤ stream.bytes.length := by omega
  simp [readPBFBlobHeader, FStream.read, heof, hfail, hn]

theorem readPBFBlobHeader_badSize (X : Extern) (stream : FStream) (threadData : _ThreadData)
    (h : badSize X stream) :
    readPBFBlobHeader X stream threadData =
      (false, { stream with pos := stream.pos + 4 }, threadData) := by
  obtain ⟨⟨heof, hfail⟩, hlen, hsize⟩ := h
  obtain ⟨hread, hfour⟩ := FStream.read_four stream heof hfail hlen
  unfold readPBFBlobHeader
  simp only [hread, hfour, Nat.sub_self, List.replicate_zero, List.append_nil, heof]
  have : (decide (swapEndian ((stream.bytes.drop stream.pos).take 4) > X.MAX_BLOB_HEADER_SIZE) ||
      decide (swapEndian ((stream.bytes.drop stream.pos).take 4) < 0)) = true := by
    unfold prefixSize at hsize
    rcases hsize with h | h
    · simp [h]
    · simp [h]
  simp [this]

theorem readPBFBlobHeader_accepted (X : Extern) (stream : FStream) (threadData : _ThreadData)
    (hgood : goodStream stream) (hlen : stream.pos + 4 ≤ stream.bytes.length)
    (h0 : 0 ≤ prefixSize stream) (h1 : prefixSize stream ≤ X.MAX_BLOB_HEADER_SIZE) :
    readPBFBlobHeader X stream threadData =
      ((X.ParseBlobHeader (headerBuffer X stream)).1,
        (({ stream with pos := stream.pos + 4 } : FStream).read (prefixSize stream).toNat).2,
        { threadData with PBFBlobHeader := (X.ParseBlobHeader (headerBuffer X stream)).2 }) := by
  obtain ⟨heof, hfail⟩ := hgood
  obtain ⟨hread, hfour⟩ := FStream.read_four stream heof hfail hlen
  unfold readPBFBlobHeader
  simp only [hread, hfour, Nat.sub_self, List.replicate_zero, List.append_nil, heof]
  unfold prefixSize at h0 h1
  have : (decide (swapEndian ((stream.bytes.drop stream.pos).take 4) > X.MAX_BLOB_HEADER_SIZE) ||
      decide (swapEndian ((stream.bytes.drop stream.pos).take 4) < 0)) = false := by
    simp only [Bool.or_eq_false_iff, decide_eq_false_iff_not]
    omega
  simp only [this]
  simp [headerBuffer, prefixSize, heof]

theorem readNextBlock_of_header_false (X : Extern) (Z : Codec) (stream : FStream)
    (threadData : _ThreadData) (h : (readPBFBlobHeader X stream threadData).1 = false) :
    (readNextBlock X Z stream threadData).1 = false := by
  unfold readNextBlock
  by_cases he : stream.eofbit = true
  · simp [he]
  · simp [he, h]

/-- C11, the negation of the claim: there are no two streams, one ending before
a length prefix and one with an out-of-range size or an undecodable header, on
which readPBFBlobHeader or readNextBlock return different values. -/
theorem header_results_do_not_differ :
    ¬ ∃ (X : Extern) (Z : Codec) (s1 s2 : FStream) (threadData : _ThreadData),
      endsBeforePrefix s1 ∧ (badSize X s2 ∨ undecodableHeader X s2) ∧
        ((readPBFBlobHeader X s1 threadData).1 ≠ (readPBFBlobHeader X s2 threadData).1 ∨
          (readNextBlock X Z s1 threadData).1 ≠ (readNextBlock X Z s2 threadData).1) := by
  rintro ⟨X, Z, s1, s2, threadData, h1, h2, hne⟩
  have a1 := (readPBFBlobHeader_ends X s1 threadData h1).1
  have a2 : (readPBFBlobHeader X s2 threadData).1 = false := by
    rcases h2 with h | ⟨hgood, hlen, h0, hmax, hparse⟩
    · rw [readPBFBlobHeader_badSize X s2 threadData h]
    · rw [readPBFBlobHeader_accepted X s2 threadData hgood hlen h0 hmax]
      exact hparse
  have b1 := readNextBlock_of_header_false X Z s1 threadData a1
  have b2 := readNextBlock_of_header_false X Z s2 threadData a2
  rcases hne with h | h
  · exact h (by rw [a1, a2])
  · exact h (by rw [b1, b2])

/-- C11 (as amended): readPBFBlobHeader and readNextBlock return the same value,
false, when the stream ends before a length prefix, when the prefix declares an
out-of-range size and when the header bytes are undecodable. What differs is the
state of the stream: its eof bit is set in the first case, and it is clear, with
the stream 4 bytes further, after an out-of-range size. -/
theorem header_failures_all_false (X : Extern) (Z : Codec) (stream : FStream)
    (threadData : _ThreadData) :
    (endsBeforePrefix stream →
      (readPBFBlobHeader X stream threadData).1 = false ∧
      (readNextBlock X Z stream threadData).1 = false ∧
      (readPBFBlobHeader X stream threadData).2.1.eofbit = true) ∧
    (badSize X stream →
      (readPBFBlobHeader X stream threadData).1 = false ∧
      (readNextBlock X Z stream threadData).1 = false ∧
      (readPBFBlobHeader X stream threadData).2.1.eofbit = false ∧
      (readPBFBlobHeader X stream threadData).2.1.pos = stream.pos + 4) ∧
    (undecodableHeader X stream →
      (readPBFBlobHeader X stream threadData).1 = false ∧
      (readNextBlock X Z stream threadData).1 = false) := by
  refine ⟨?_, ?_, ?_⟩
  · intro h
    obtain ⟨a, b⟩ := readPBFBlobHeader_ends X stream threadData h
    exact ⟨a, readNextBlock_of_header_false X Z stream threadData a, b⟩
  · intro h
    have e := readPBFBlobHeader_badSize X stream threadData h
    have a : (readPBFBlobHeader X stream threadData).1 = false := by rw [e]
    refine ⟨a, readNextBlock_of_header_false X Z stream threadData a, ?_, ?_⟩
    · rw [e]; exact h.1.1
    · rw [e]
  · rintro ⟨hgood, hlen, h0, hmax, hparse⟩
    have a : (readPBFBlobHeader X stream threadData).1 = false := by
      rw [readPBFBlobHeader_accepted X stream threadData hgood hlen h0 hmax]
      exact hparse
    exact ⟨a, readNextBlock_of_header_false X Z stream threadData a⟩

/-- Witness for C11: an empty stream, a stream whose prefix is -1, and a stream
whose prefix 0 is followed by an empty header that the decoder rejects. -/
theorem header_failures_all_false_witness :
    ((readPBFBlobHeader sampleExtern ⟨[], 0, false, false⟩ emptyThreadData).1 = false ∧
      (readNextBlock sampleExtern sampleCodec ⟨[], 0, false, false⟩ emptyThreadData).1 = false ∧
      (readPBFBlobHeader sampleExtern ⟨[], 0, false, false⟩ emptyThreadData).2.1.eofbit = true) ∧
    ((readPBFBlobHeader sampleExtern ⟨[255, 255, 255, 255], 0, false, false⟩
        emptyThreadData).1 = false ∧
      (readNextBlock sampleExtern sampleCodec ⟨[255, 255, 255, 255], 0, false, false⟩
        emptyThreadData).1 = false ∧
      (readPBFBlobHeader sampleExtern ⟨[255, 255, 255, 255], 0, false, false⟩
        emptyThreadData).2.1.eofbit = false ∧
      (readPBFBlobHeader sampleExtern ⟨[255, 255, 255, 255], 0, false, false⟩
        emptyThreadData).2.1.pos = 0 + 4) ∧
    ((readPBFBlobHeader sampleExtern ⟨[0, 0, 0, 0], 0, false, false⟩ emptyThreadData).1 = false ∧
      (readNextBlock sampleExtern sampleCodec ⟨[0, 0, 0, 0], 0, false, false⟩
        emptyThreadData).1 = false) :=
  ⟨(header_failures_all_false sampleExtern sampleCodec ⟨[], 0, false, false⟩ emptyThreadData).1
      ⟨⟨rfl, rfl⟩, by decide⟩,
    (header_failures_all_false sampleExtern sampleCodec ⟨[255, 255, 255, 255], 0, false, false⟩
      emptyThreadData).2.1 ⟨⟨rfl, rfl⟩, by decide, Or.inl (by decide)⟩,
    (header_failures_all_false sampleExtern sampleCodec ⟨[0, 0, 0, 0], 0, false, false⟩
      emptyThreadData).2.2 ⟨⟨rfl, rfl⟩, by decide, by decide, by decide, rfl⟩⟩

/-! ## readBlob: the encodings (C15) -/

theorem readBlob_accepted (X : Extern) (Z : Codec) (stream : FStream) (threadData : _ThreadData)
    (heof : stream.eofbit = false) (h0 : 0 ≤ threadData.PBFBlobHeader.datasize)
    (h1 : threadData.PBFBlobHeader.datasize ≤ Z.MAX_BLOB_SIZE)
    (hparse : (Z.ParseBlob (blobBuffer X stream threadData)).1 = true) :
    readBlob X Z stream threadData =
      match (Z.ParseBlob (blobBuffer X stream threadData)).2.raw with
      | some raw =>
        (true, (stream.read threadData.PBFBlobHeader.datasize.toNat).2,
          { threadData with PBFBlob := (Z.ParseBlob (blobBuffer X stream threadData)).2,
                            charBuffer := raw })
      | none =>
        match (Z.ParseBlob (blobBuffer X stream threadData)).2.zlib_data with
        | some _ =>
          ((unpackZLIB X Z { threadData with
              PBFBlob := (Z.ParseBlob (blobBuffer X stream threadData)).2 }).1,
            (stream.read threadData.PBFBlobHeader.datasize.toNat).2,
            (unpackZLIB X Z { threadData with
              PBFBlob := (Z.ParseBlob (blobBuffer X stream threadData)).2 }).2)
        | none =>
          (false, (stream.read threadData.PBFBlobHeader.datasize.toNat).2,
            { threadData with PBFBlob := (Z.ParseBlob (blobBuffer X stream threadData)).2 }) := by
  have hs : (decide (threadData.PBFBlobHeader.datasize < 0) ||
      decide (threadData.PBFBlobHeader.datasize > Z.MAX_BLOB_SIZE)) = false := by
    simp only [Bool.or_eq_false_iff, decide_eq_false_iff_not]
    omega
  unfold readBlob
  simp only [heof, hs, blobBuffer] at hparse ⊢
  simp only [Bool.false_eq_true, if_false, hparse, Bool.not_true]
  cases hraw : (Z.ParseBlob ((stream.read threadData.PBFBlobHeader.datasize.toNat).1 ++
      List.drop (stream.read threadData.PBFBlobHeader.datasize.toNat).1.length
        (X.alloc threadData.PBFBlobHeader.datasize.toNat))).2.raw with
  | some raw => rfl
  | none =>
    cases hz : (Z.ParseBlob ((stream.read threadData.PBFBlobHeader.datasize.toNat).1 ++
        List.drop (stream.read threadData.PBFBlobHeader.datasize.toNat).1.length
          (X.alloc threadData.PBFBlobHeader.datasize.toNat))).2.zlib_data with
    | some z =>
      simp only []
      cases hu : (unpackZLIB X Z { threadData with
          PBFBlob := (Z.ParseBlob ((stream.read threadData.PBFBlobHeader.datasize.toNat).1 ++
            List.drop (stream.read threadData.PBFBlobHeader.datasize.toNat).1.length
              (X.alloc threadData.PBFBlobHeader.datasize.toNat))).2 }).1 <;> simp
    | none =>
      simp only []
      cases (Z.ParseBlob ((stream.read threadData.PBFBlobHeader.datasize.toNat).1 ++
        List.drop (stream.read threadData.PBFBlobHeader.datasize.toNat).1.length
          (X.alloc threadData.PBFBlobHeader.datasize.toNat))).2.lzma_data <;> simp [unpackLZMA]

theorem readBlob_true_accepted (X : Extern) (Z : Codec) (stream : FStream)
    (threadData : _ThreadData) (h : (readBlob X Z stream threadData).1 = true) :
    stream.eofbit = false ∧ 0 ≤ threadData.PBFBlobHeader.datasize ∧
      threadData.PBFBlobHeader.datasize ≤ Z.MAX_BLOB_SIZE ∧
      (Z.ParseBlob (blobBuffer X stream threadData)).1 = true := by
  unfold readBlob at h
  by_cases heof : stream.eofbit = true
  · simp [heof] at h
  · simp only [heof, Bool.false_eq_true, if_false] at h
    by_cases hs : (decide (threadData.PBFBlobHeader.datasize < 0) ||
        decide (threadData.PBFBlobHeader.datasize > Z.MAX_BLOB_SIZE)) = true
    · simp [hs] at h
    · simp only [hs, Bool.false_eq_true, if_false] at h
      simp only [Bool.not_eq_true, Bool.or_eq_false_iff, decide_eq_false_iff_not] at hs
      refine ⟨by simpa using heof, by omega, by omega, ?_⟩
      unfold blobBuffer
      by_contra hp
      simp only [Bool.not_eq_true] at hp
      simp [hp] at h

/-- C15: a decodable blob that exposes neither raw data nor zlib data makes
readBlob return false, whether it carries lzma data or no data at all; and when
readBlob returns true, either the blob has raw data and the buffer is that
payload verbatim, or it has no raw data but zlib data, unpackZLIB returned true
and the thread data is what unpackZLIB left. -/
theorem readBlob_encodings (X : Extern) (Z : Codec) (stream : FStream)
    (threadData : _ThreadData) :
    (stream.eofbit = false → 0 ≤ threadData.PBFBlobHeader.datasize →
      threadData.PBFBlobHeader.datasize ≤ Z.MAX_BLOB_SIZE →
      (Z.ParseBlob (blobBuffer X stream threadData)).1 = true →
      (Z.ParseBlob (blobBuffer X stream threadData)).2.raw = none →
      (Z.ParseBlob (blobBuffer X stream threadData)).2.zlib_data = none →
      (readBlob X Z stream threadData).1 = false) ∧
    ((readBlob X Z stream threadData).1 = true →
      (∃ raw, (Z.ParseBlob (blobBuffer X stream threadData)).2.raw = some raw ∧
        (readBlob X Z stream threadData).2.2.charBuffer = raw) ∨
      ((Z.ParseBlob (blobBuffer X stream threadData)).2.raw = none ∧
        (Z.ParseBlob (blobBuffer X stream threadData)).2.zlib_data ≠ none ∧
        (unpackZLIB X Z { threadData with
          PBFBlob := (Z.ParseBlob (blobBuffer X stream threadData)).2 }).1 = true ∧
        (readBlob X Z stream threadData).2.2 =
          (unpackZLIB X Z { threadData with
            PBFBlob := (Z.ParseBlob (blobBuffer X stream threadData)).2 }).2)) := by
  constructor
  · intro heof h0 h1 hparse hraw hz
    rw [readBlob_accepted X Z stream threadData heof h0 h1 hparse, hraw, hz]
  · intro h
    obtain ⟨heof, h0, h1, hparse⟩ := readBlob_true_accepted X Z stream threadData h
    have e := readBlob_accepted X Z stream threadData heof h0 h1 hparse
    cases hraw : (Z.ParseBlob (blobBuffer X stream threadData)).2.raw with
    | some raw =>
      left
      refine ⟨raw, rfl, ?_⟩
      rw [e, hraw]
    | none =>
      right
      cases hz : (Z.ParseBlob (blobBuffer X stream threadData)).2.zlib_data with
      | none =>
        rw [e, hraw, hz] at h
        cases h
      | some z =>
        rw [e, hraw, hz] at h
        refine ⟨rfl, by simp, h, ?_⟩
        rw [e, hraw, hz]

/-- Witness for C15: a blob that carries only lzma data, and a blob that carries
raw data. -/
theorem readBlob_encodings_witness :
    (readBlob sampleExtern sampleCodec ⟨[3, 9, 9], 0, false, false⟩
        { emptyThreadData with PBFBlobHeader := ⟨"OSMData", 3⟩ }).1 = false ∧
    ((∃ raw, (sampleCodec.ParseBlob (blobBuffer sampleExtern ⟨[1, 7, 8], 0, false, false⟩
          { emptyThreadData with PBFBlobHeader := ⟨"OSMData", 3⟩ })).2.raw = some raw ∧
        (readBlob sampleExtern sampleCodec ⟨[1, 7, 8], 0, false, false⟩
          { emptyThreadData with PBFBlobHeader := ⟨"OSMData", 3⟩ }).2.2.charBuffer = raw) ∨
      ((sampleCodec.ParseBlob (blobBuffer sampleExtern ⟨[1, 7, 8], 0, false, false⟩
          { emptyThreadData with PBFBlobHeader := ⟨"OSMData", 3⟩ })).2.raw = none ∧
        (sampleCodec.ParseBlob (blobBuffer sampleExtern ⟨[1, 7, 8], 0, false, false⟩
          { emptyThreadData with PBFBlobHeader := ⟨"OSMData", 3⟩ })).2.zlib_data ≠ none ∧
        (unpackZLIB sampleExtern sampleCodec { { emptyThreadData with
            PBFBlobHeader := ⟨"OSMData", 3⟩ } with
          PBFBlob := (sampleCodec.ParseBlob (blobBuffer sampleExtern ⟨[1, 7, 8], 0, false, false⟩
            { emptyThreadData with PBFBlobHeader := ⟨"OSMData", 3⟩ })).2 }).1 = true ∧
        (readBlob sampleExtern sampleCodec ⟨[1, 7, 8], 0, false, false⟩
          { emptyThreadData with PBFBlobHeader := ⟨"OSMData", 3⟩ }).2.2 =
          (unpackZLIB sampleExtern sampleCodec { { emptyThreadData with
              PBFBlobHeader := ⟨"OSMData", 3⟩ } with
            PBFBlob := (sampleCodec.ParseBlob
              (blobBuffer sampleExtern ⟨[1, 7, 8], 0, false, false⟩
                { emptyThreadData with PBFBlobHeader := ⟨"OSMData", 3⟩ })).2 }).2)) :=
  ⟨(readBlob_encodings sampleExtern sampleCodec ⟨[3, 9, 9], 0, false, false⟩
      { emptyThreadData with PBFBlobHeader := ⟨"OSMData", 3⟩ }).1 rfl (by decide) (by decide)
      rfl rfl rfl,
    (readBlob_encodings sampleExtern sampleCodec ⟨[1, 7, 8], 0, false, false⟩
      { emptyThreadData with PBFBlobHeader := ⟨"OSMData", 3⟩ }).2 rfl⟩

/-- The blobs of the witness and a blob without any payload, evaluated. -/
theorem readBlob_examples :
    (readBlob sampleExtern sampleCodec ⟨[1, 7, 8], 0, false, false⟩
        { emptyThreadData with PBFBlobHeader := ⟨"OSMData", 3⟩ }).2.2.charBuffer = [7, 8] ∧
    (readBlob sampleExtern sampleCodec ⟨[3, 9, 9], 0, false, false⟩
        { emptyThreadData with PBFBlobHeader := ⟨"OSMData", 3⟩ }).1 = false ∧
    (readBlob sampleExtern sampleCodec ⟨[4, 9, 9], 0, false, false⟩
        { emptyThreadData with PBFBlobHeader := ⟨"OSMData", 3⟩ }).1 = false :=
  ⟨rfl, rfl, rfl⟩

/-! ## unpackZLIB: what is checked (C14) -/

theorem unpackZLIB_true_iff (X : Extern) (Z : Codec) (threadData : _ThreadData) :
    (unpackZLIB X Z threadData).1 = true ↔
      Z.inflateInit = Z_OK ∧
      (Z.inflate (threadData.PBFBlob.zlib_data.getD [])
        (toUInt32 threadData.PBFBlob.raw_size).toNat).1 = Z_STREAM_END ∧
      Z.inflateEnd = Z_OK := by
  unfold unpackZLIB
  by_cases h1 : Z.inflateInit = Z_OK
  · by_cases h2 : (Z.inflate (threadData.PBFBlob.zlib_data.getD [])
        (toUInt32 threadData.PBFBlob.raw_size).toNat).1 = Z_STREAM_END
    · by_cases h3 : Z.inflateEnd = Z_OK
      · simp [h1, h2, h3]
      · simp [h1, h2, h3]
    · simp [h1, h2]
  · simp [h1]

/-- C14, the code at a failing input: the blob declares raw_size 4 and its
zlib data inflates completely, with Z_STREAM_END, to the two bytes 1, 2.
unpackZLIB returns true, and the buffer has the declared 4 bytes: the two
inflated ones followed by what the output array held before (170, 170). -/
theorem unpackZLIB_accepts_short_output :
    sampleCodec.inflate [1, 2] 4 = (Z_STREAM_END, [1, 2], 2) ∧
      unpackZLIB sampleExtern sampleCodec
        { emptyThreadData with PBFBlob := { raw_size := 4, zlib_data := some [1, 2] } } =
      (true, { emptyThreadData with
        PBFBlob := { raw_size := 4, zlib_data := some [1, 2] },
        charBuffer := [1, 2, 170, 170] }) :=
  ⟨rfl, rfl⟩

/-- What unpackZLIB does check: a payload that does not fit into raw_size bytes
(inflate returns Z_BUF_ERROR instead of Z_STREAM_END) makes it return false, and
a payload of exactly raw_size bytes is delivered as it is. -/
theorem unpackZLIB_examples :
    (unpackZLIB sampleExtern sampleCodec
        { emptyThreadData with PBFBlob := { raw_size := 1, zlib_data := some [1, 2] } }).1 =
      false ∧
    (unpackZLIB sampleExtern sampleCodec
        { emptyThreadData with PBFBlob := { raw_size := 2, zlib_data := some [1, 2] } }).2.charBuffer =
      [1, 2] :=
  ⟨rfl, rfl⟩

/-! ## Init: the required features (C12) and a blob that cannot be read (C13) -/

theorem featureLoop_iff (features : List String) :
    featureLoop features = true ↔
      ∀ f ∈ features, f = "OsmSchema-V0.6" ∨ f = "DenseNodes" := by
  induction features with
  | nil => simp [featureLoop]
  | cons f rest ih =>
    by_cases h1 : f = "OsmSchema-V0.6"
    · simp [featureLoop, supportedFeature, h1, ih]
    · by_cases h2 : f = "DenseNodes"
      · simp [featureLoop, supportedFeature, h2, ih]
      · simp [featureLoop, supportedFeature, h1, h2]

/-- C12: when the first frame is read (readPBFBlobHeader and readBlob return
true) and its buffer is decoded as a header block, Init returns true exactly
when every entry of the block's required-feature list is `OsmSchema-V0.6` or
`DenseNodes`; one other entry, at any position, makes it return false. -/
theorem Init_required_features (X : Extern) (Z : Codec) (input : FStream)
    (hheader : (readPBFBlobHeader X input emptyThreadData).1 = true)
    (hblob : (readBlob X Z (readPBFBlobHeader X input emptyThreadData).2.1
      (readPBFBlobHeader X input emptyThreadData).2.2).1 = true)
    (hblock : (Z.ParseHeaderBlock (readBlob X Z (readPBFBlobHeader X input emptyThreadData).2.1
      (readPBFBlobHeader X input emptyThreadData).2.2).2.2.charBuffer).1 = true) :
    (Init X Z input).1 = true ↔
      ∀ f ∈ (Z.ParseHeaderBlock (readBlob X Z (readPBFBlobHeader X input emptyThreadData).2.1
          (readPBFBlobHeader X input emptyThreadData).2.2).2.2.charBuffer).2.required_features,
        f = "OsmSchema-V0.6" ∨ f = "DenseNodes" := by
  rw [← featureLoop_iff]
  unfold Init
  simp only [hheader, hblob, hblock, Bool.not_true, Bool.false_eq_true, if_false, if_true]
  cases featureLoop (Z.ParseHeaderBlock (readBlob X Z
      (readPBFBlobHeader X input emptyThreadData).2.1
      (readPBFBlobHeader X input emptyThreadData).2.2).2.2.charBuffer).2.required_features <;>
    simp

/-- Witness for C12: a header frame of three bytes, a raw blob whose payload
decodes to the features OsmSchema-V0.6 and DenseNodes. -/
theorem Init_required_features_witness :
    (Init sampleExtern sampleCodec ⟨[0, 0, 0, 1, 3, 1, 1, 2], 0, false, false⟩).1 = true ↔
      ∀ f ∈ (sampleCodec.ParseHeaderBlock (readBlob sampleExtern sampleCodec
          (readPBFBlobHeader sampleExtern ⟨[0, 0, 0, 1, 3, 1, 1, 2], 0, false, false⟩
            emptyThreadData).2.1
          (readPBFBlobHeader sampleExtern ⟨[0, 0, 0, 1, 3, 1, 1, 2], 0, false, false⟩
            emptyThreadData).2.2).2.2.charBuffer).2.required_features,
        f = "OsmSchema-V0.6" ∨ f = "DenseNodes" :=
  Init_required_features sampleExtern sampleCodec ⟨[0, 0, 0, 1, 3, 1, 1, 2], 0, false, false⟩
    rfl rfl rfl

/-- Two header frames evaluated: the features OsmSchema-V0.6, DenseNodes are
accepted; HistoricalInformation between them is refused. -/
theorem Init_examples :
    (Init sampleExtern sampleCodec ⟨[0, 0, 0, 1, 3, 1, 1, 2], 0, false, false⟩).1 = true ∧
    (Init sampleExtern sampleCodec ⟨[0, 0, 0, 1, 4, 1, 1, 5, 2], 0, false, false⟩).1 = false :=
  ⟨rfl, rfl⟩

theorem Init_of_blob_failure (X : Extern) (Z : Codec) (input : FStream)
    (hheader : (readPBFBlobHeader X input emptyThreadData).1 = true)
    (hblob : (readBlob X Z (readPBFBlobHeader X input emptyThreadData).2.1
      (readPBFBlobHeader X input emptyThreadData).2.2).1 = false) :
    (Init X Z input).1 = true := by
  unfold Init
  simp [hheader, hblob]

theorem Init_of_header_failure (X : Extern) (Z : Codec) (input : FStream)
    (hheader : (readPBFBlobHeader X input emptyThreadData).1 = false) :
    (Init X Z input).1 = false := by
  unfold Init
  simp [hheader]

/-- C13, the code at a failing input: the header frame is read, the blob after
it carries only lzma data, readBlob returns false, and Init returns true. -/
theorem Init_true_after_blob_failure :
    (readPBFBlobHeader sampleExtern ⟨[0, 0, 0, 1, 3, 3, 9, 9], 0, false, false⟩
        emptyThreadData).1 = true ∧
      (readBlob sampleExtern sampleCodec
        (readPBFBlobHeader sampleExtern ⟨[0, 0, 0, 1, 3, 3, 9, 9], 0, false, false⟩
          emptyThreadData).2.1
        (readPBFBlobHeader sampleExtern ⟨[0, 0, 0, 1, 3, 3, 9, 9], 0, false, false⟩
          emptyThreadData).2.2).1 = false ∧
      (Init sampleExtern sampleCodec ⟨[0, 0, 0, 1, 3, 3, 9, 9], 0, false, false⟩).1 = true :=
  ⟨rfl, rfl, rfl⟩

/-! ## The queue: ReadData then ParseData (C16) -/

theorem FStream.read_advances (stream : FStream) (n : Nat) (hinv : streamInv stream)
    (hpos : stream.pos ≤ stream.bytes.length) :
    (stream.read n).2.bytes = stream.bytes ∧ streamInv (stream.read n).2 ∧
      stream.pos ≤ (stream.read n).2.pos ∧ (stream.read n).2.pos ≤ stream.bytes.length := by
  by_cases h1 : (stream.eofbit || stream.failbit) = true
  · have e : stream.read n = ([], { stream with failbit := true }) := by
      simp [FStream.read, h1]
    rw [e]
    refine ⟨rfl, ?_, le_refl _, hpos⟩
    intro _
    simp only [Bool.or_eq_true] at h1
    rcases h1 with h | h
    · exact h
    · exact hinv h
  · by_cases h2 : stream.pos + n ≤ stream.bytes.length
    · have e : stream.read n =
          ((stream.bytes.drop stream.pos).take n, { stream with pos := stream.pos + n }) := by
        simp [FStream.read, h1, h2]
      rw [e]
      simp only [Bool.or_eq_true, not_or, Bool.not_eq_true] at h1
      refine ⟨rfl, ?_, Nat.le_add_right _ _, h2⟩
      intro hf
      have hf' : stream.failbit = true := hf
      rw [h1.2] at hf'
      cases hf'
    · have e : stream.read n = (stream.bytes.drop stream.pos,
          { stream with pos := stream.bytes.length, eofbit := true, failbit := true }) := by
        simp [FStream.read, h1, h2]
      rw [e]
      exact ⟨rfl, fun _ => rfl, hpos, le_refl _⟩

theorem readPBFBlobHeader_advances (X : Extern) (stream : FStream) (threadData : _ThreadData)
    (hinv : streamInv stream) (h : (readPBFBlobHeader X stream threadData).1 = true) :
    (readPBFBlobHeader X stream threadData).2.1.bytes = stream.bytes ∧
      streamInv (readPBFBlobHeader X stream threadData).2.1 ∧
      stream.pos + 4 ≤ (readPBFBlobHeader X stream threadData).2.1.pos ∧
      (readPBFBlobHeader X stream threadData).2.1.pos ≤ stream.bytes.length := by
  by_cases heof : stream.eofbit = true
  · simp [readPBFBlobHeader, FStream.read, heof] at h
  · have heof' : stream.eofbit = false := by simpa using heof
    have hfail : stream.failbit = false := by
      by_contra hc
      have := hinv (by simpa using hc)
      rw [heof'] at this
      cases this
    by_cases hlen : stream.pos + 4 ≤ stream.bytes.length
    · by_cases hs : prefixSize stream < 0 ∨ prefixSize stream > X.MAX_BLOB_HEADER_SIZE
      · rw [readPBFBlobHeader_badSize X stream threadData ⟨⟨heof', hfail⟩, hlen, hs⟩] at h
        cases h
      · rw [readPBFBlobHeader_accepted X stream threadData ⟨heof', hfail⟩ hlen (by omega)
          (by omega)]
        have hinv4 : streamInv ({ stream with pos := stream.pos + 4 } : FStream) := by
          intro hf
          simp only [hfail] at hf
          cases hf
        obtain ⟨a, b, c, d⟩ := FStream.read_advances
          ({ stream with pos := stream.pos + 4 } : FStream) (prefixSize stream).toNat hinv4 hlen
        exact ⟨a, b, c, d⟩
    · have := (readPBFBlobHeader_ends X stream threadData ⟨⟨heof', hfail⟩, by omega⟩).1
      rw [this] at h
      cases h

theorem readBlob_stream (X : Extern) (Z : Codec) (stream : FStream) (threadData : _ThreadData) :
    (readBlob X Z stream threadData).2.1 = stream ∨
      (readBlob X Z stream threadData).2.1 =
        (stream.read threadData.PBFBlobHeader.datasize.toNat).2 := by
  by_cases heof : stream.eofbit = true
  · left; simp [readBlob, heof]
  · by_cases hs : (decide (threadData.PBFBlobHeader.datasize < 0) ||
        decide (threadData.PBFBlobHeader.datasize > Z.MAX_BLOB_SIZE)) = true
    · left; simp [readBlob, heof, hs]
    · by_cases hp : (Z.ParseBlob (blobBuffer X stream threadData)).1 = true
      · right
        have hs' := hs
        simp only [Bool.not_eq_true, Bool.or_eq_false_iff, decide_eq_false_iff_not] at hs'
        rw [readBlob_accepted X Z stream threadData (by simpa using heof) (by omega) (by omega) hp]
        cases (Z.ParseBlob (blobBuffer X stream threadData)).2.raw with
        | some raw => rfl
        | none =>
          cases (Z.ParseBlob (blobBuffer X stream threadData)).2.zlib_data <;> rfl
      · right
        unfold blobBuffer at hp
        simp [readBlob, heof, hs, hp]

theorem readBlob_advances (X : Extern) (Z : Codec) (stream : FStream) (threadData : _ThreadData)
    (hinv : streamInv stream) (hpos : stream.pos ≤ stream.bytes.length) :
    (readBlob X Z stream threadData).2.1.bytes = stream.bytes ∧
      streamInv (readBlob X Z stream threadData).2.1 ∧
      stream.pos ≤ (readBlob X Z stream threadData).2.1.pos ∧
      (readBlob X Z stream threadData).2.1.pos ≤ stream.bytes.length := by
  rcases readBlob_stream X Z stream threadData with h | h
  · rw [h]
    exact ⟨rfl, hinv, le_refl _, hpos⟩
  · rw [h]
    exact FStream.read_advances stream threadData.PBFBlobHeader.datasize.toNat hinv hpos

theorem readNextBlock_advances (X : Extern) (Z : Codec) (stream : FStream)
    (threadData : _ThreadData) (hinv : streamInv stream)
    (h : (readNextBlock X Z stream threadData).1 = true) :
    (readNextBlock X Z stream threadData).2.1.bytes = stream.bytes ∧
      streamInv (readNextBlock X Z stream threadData).2.1 ∧
      stream.pos + 4 ≤ (readNextBlock X Z stream threadData).2.1.pos ∧
      (readNextBlock X Z stream threadData).2.1.pos ≤ stream.bytes.length := by
  have hh : (readPBFBlobHeader X stream threadData).1 = true := by
    by_contra hc
    have := readNextBlock_of_header_false X Z stream threadData (by simpa using hc)
    rw [this] at h
    cases h
  obtain ⟨a1, a2, a3, a4⟩ := readPBFBlobHeader_advances X stream threadData hinv hh
  obtain ⟨b1, b2, b3, b4⟩ := readBlob_advances X Z (readPBFBlobHeader X stream threadData).2.1
    (readPBFBlobHeader X stream threadData).2.2 a2 (by rw [a1]; exact a4)
  have hb : (readBlob X Z (readPBFBlobHeader X stream threadData).2.1
        (readPBFBlobHeader X stream threadData).2.2).2.1.bytes = stream.bytes ∧
      streamInv (readBlob X Z (readPBFBlobHeader X stream threadData).2.1
        (readPBFBlobHeader X stream threadData).2.2).2.1 ∧
      stream.pos + 4 ≤ (readBlob X Z (readPBFBlobHeader X stream threadData).2.1
        (readPBFBlobHeader X stream threadData).2.2).2.1.pos ∧
      (readBlob X Z (readPBFBlobHeader X stream threadData).2.1
        (readPBFBlobHeader X stream threadData).2.2).2.1.pos ≤ stream.bytes.length :=
    ⟨by rw [b1, a1], b2, by omega, by rw [a1] at b4; exact b4⟩
  have hstream : (readNextBlock X Z stream threadData).2.1 =
      (readBlob X Z (readPBFBlobHeader X stream threadData).2.1
        (readPBFBlobHeader X stream threadData).2.2).2.1 := by
    by_cases heof : stream.eofbit = true
    · simp [readNextBlock, heof] at h
    · by_cases htype : ((readPBFBlobHeader X stream threadData).2.2.PBFBlobHeader.type !=
          "OSMData") = true
      · simp [readNextBlock, heof, hh, htype] at h
      · by_cases hblob : (readBlob X Z (readPBFBlobHeader X stream threadData).2.1
            (readPBFBlobHeader X stream threadData).2.2).1 = true
        · simp only [readNextBlock, heof, hh, htype, hblob, Bool.not_true, Bool.false_eq_true,
            if_false]
          split <;> rfl
        · simp [readNextBlock, heof, hh, htype, hblob] at h
  rw [hstream]
  exact hb

theorem ReadDataLoop_returns (X : Extern) (Z : Codec) :
    ∀ (fuel : Nat) (input : FStream) (queue : List (Option _ThreadData)),
      streamInv input → input.bytes.length - input.pos < fuel →
      ∃ blocks final,
        ReadDataLoop X Z fuel input queue = some (final, queue ++ blocks.map some ++ [none]) ∧
        ReadsTo X Z input blocks final := by
  intro fuel
  induction fuel with
  | zero => intro input queue _ h; omega
  | succ fuel ih =>
    intro input queue hinv hfuel
    by_cases hr : (readNextBlock X Z input emptyThreadData).1 = true
    · obtain ⟨a, b, c, d⟩ := readNextBlock_advances X Z input emptyThreadData hinv hr
      obtain ⟨blocks, final, hloop, hreads⟩ := ih (readNextBlock X Z input emptyThreadData).2.1
        (queue ++ [some (readNextBlock X Z input emptyThreadData).2.2]) b (by rw [a]; omega)
      refine ⟨(readNextBlock X Z input emptyThreadData).2.2 :: blocks, final, ?_,
        ReadsTo.step input blocks final hr hreads⟩
      simp only [ReadDataLoop, hr, if_true, hloop]
      simp
    · have hr' : (readNextBlock X Z input emptyThreadData).1 = false := by simpa using hr
      refine ⟨[], (readNextBlock X Z input emptyThreadData).2.1, ?_, ReadsTo.stop input hr'⟩
      simp [ReadDataLoop, hr']

/-- `ReadData` always returns on a stream in which `failbit` is set only
together with `eofbit`: the iterations it is given are enough. -/
theorem ReadData_returns (X : Extern) (Z : Codec) (input : FStream)
    (queue : List (Option _ThreadData)) (hinv : streamInv input) :
    ∃ blocks final,
      ReadData X Z input queue = some (final, queue ++ blocks.map some ++ [none]) ∧
      ReadsTo X Z input blocks final :=
  ReadDataLoop_returns X Z (input.bytes.length + 1) input queue hinv (by omega)

theorem ParseData_blocks {σ : Type} (D : Decoders σ) (ndebug : Bool) :
    ∀ (blocks : List _ThreadData) (w : σ),
      ParseData D ndebug (blocks.map some ++ [none]) w =
        match runBlocks D ndebug blocks w with
        | .error e => .error e
        | .ok w' => .ok ([none], w') := by
  intro blocks
  induction blocks with
  | nil => intro w; simp [ParseData, runBlocks]
  | cons b blocks ih =>
    intro w
    simp only [List.map_cons, List.cons_append, ParseData, runBlocks]
    cases parseBlock D ndebug b w with
    | error e => rfl
    | ok st => exact ih st.2

/-- C16: with the queue a FIFO list and the producer run before the consumer,
ReadData returns and leaves in the queue every block that readNextBlock read,
in read order, followed by one sentinel and nothing else; ParseData then
processes exactly these blocks in that order and, on popping the sentinel,
pushes one sentinel and stops, so the queue ends up holding exactly one
sentinel, and a further ParseData run on that queue finds it too. -/
theorem queue_shutdown (X : Extern) (Z : Codec) (input : FStream) (hinv : streamInv input) :
    ∃ blocks final,
      ReadData X Z input [] = some (final, blocks.map some ++ [none]) ∧
      ReadsTo X Z input blocks final ∧
      ∀ (σ : Type) (D : Decoders σ) (ndebug : Bool) (w : σ),
        (ParseData D ndebug (blocks.map some ++ [none]) w =
          match runBlocks D ndebug blocks w with
          | .error e => .error e
          | .ok w' => .ok ([none], w')) ∧
        ParseData D ndebug [none] w = .ok ([none], w) := by
  obtain ⟨blocks, final, h1, h2⟩ := ReadData_returns X Z input [] hinv
  refine ⟨blocks, final, by simpa using h1, h2, ?_⟩
  intro σ D ndebug w
  exact ⟨ParseData_blocks D ndebug blocks w, rfl⟩

/-- Witness for C16: a stream of two frames, each a 1-byte header and a raw
blob. -/
theorem queue_shutdown_witness :
    ∃ blocks final,
      ReadData sampleExtern sampleCodec
          ⟨[0, 0, 0, 1, 3, 1, 7, 7, 0, 0, 0, 1, 2, 1, 7], 0, false, false⟩ [] =
        some (final, blocks.map some ++ [none]) ∧
      ReadsTo sampleExtern sampleCodec
        ⟨[0, 0, 0, 1, 3, 1, 7, 7, 0, 0, 0, 1, 2, 1, 7], 0, false, false⟩ blocks final ∧
      ∀ (σ : Type) (D : Decoders σ) (ndebug : Bool) (w : σ),
        (ParseData D ndebug (blocks.map some ++ [none]) w =
          match runBlocks D ndebug blocks w with
          | .error e => .error e
          | .ok w' => .ok ([none], w')) ∧
        ParseData D ndebug [none] w = .ok ([none], w) :=
  queue_shutdown sampleExtern sampleCodec
    ⟨[0, 0, 0, 1, 3, 1, 7, 7, 0, 0, 0, 1, 2, 1, 7], 0, false, false⟩
    (by intro h; cases h)

/-- The stream of the witness evaluated: two blocks and the sentinel are queued
(the first block has two groups, the second one), and the stream ends at its
last byte. -/
theorem ReadData_example :
    (ReadData sampleExtern sampleCodec
        ⟨[0, 0, 0, 1, 3, 1, 7, 7, 0, 0, 0, 1, 2, 1, 7], 0, false, false⟩ []).map
      (fun r => (r.1.pos, r.2.map (fun e => e.map
        (fun td => td.PBFprimitiveBlock.primitivegroup.length)))) =
      some (15, [some 2, some 1, none]) := rfl

end PBFParser
